import Mathlib

/-!
Verification development for the power-sensor application
(connection facade, drivers, discovery, polling pipeline, unit parser).

The Python sources are shallowly embedded: strings are `List Char`,
floating-point readings are modelled as rationals (all the code under
scrutiny only compares, parses and multiplies them), stateful classes
become explicit state records, exceptions become `Except`, and the
thread interleavings of the polling worker become a labelled step
relation over a configuration type.
-/

namespace PowerApp

/-! ## Python string primitives (ASCII fragment used by the sources) -/

/-- Python whitespace (`str.strip`, `str.split`, regex class) restricted
to the ASCII characters the app can meet. -/
def pyIsSpace (c : Char) : Bool :=
  c = ' ' || c = '\t' || c = '\n' || c = '\x0d' || c = '\x0b' || c = '\x0c'

/-- The character class of the regex fragment in `core/utils.py`. -/
def pyIsAlpha (c : Char) : Bool :=
  ('a' ≤ c && c ≤ 'z') || ('A' ≤ c && c ≤ 'Z')

def pyIsDigit (c : Char) : Bool :=
  '0' ≤ c && c ≤ '9'

/-- ASCII upper-casing of one character. -/
def pyToUpper (c : Char) : Char :=
  if 'a' ≤ c && c ≤ 'z' then Char.ofNat (c.toNat - 32) else c

/-- ASCII lower-casing of one character. -/
def pyToLower (c : Char) : Char :=
  if 'A' ≤ c && c ≤ 'Z' then Char.ofNat (c.toNat + 32) else c

/-- `str.upper` on the ASCII fragment. -/
def pyUpper (cs : List Char) : List Char :=
  cs.map pyToUpper

/-- `str.lower` on the ASCII fragment. -/
def pyLower (cs : List Char) : List Char :=
  cs.map pyToLower

/-- `str.strip()`: drop leading and trailing whitespace. -/
def pyStrip (cs : List Char) : List Char :=
  ((cs.dropWhile pyIsSpace).reverse.dropWhile pyIsSpace).reverse

/-- `str.startswith(pre)`. -/
def listStartsWith : List Char → List Char → Bool
  | [], _ => true
  | _ :: _, [] => false
  | p :: ps, c :: cs => p = c && listStartsWith ps cs

/-- `str.split()` with no argument: split on runs of whitespace,
discarding empty pieces.  `acc` holds the current word, reversed. -/
def pyWordsAux : List Char → List Char → List (List Char)
  | [], acc => if acc.isEmpty then [] else [acc.reverse]
  | c :: rest, acc =>
      if pyIsSpace c then
        if acc.isEmpty then pyWordsAux rest []
        else acc.reverse :: pyWordsAux rest []
      else pyWordsAux rest (c :: acc)

def pyWords (cs : List Char) : List (List Char) :=
  pyWordsAux cs []

/-! ## Python `int()` on a token, and `str()` of an integer -/

def digitVal (c : Char) : Nat := c.toNat - '0'.toNat

def digitsVal (cs : List Char) : Nat :=
  cs.foldl (fun a c => 10 * a + digitVal c) 0

/-- After the first digit, Python `int()` accepts digits with single
underscores strictly between digits. -/
def pyIntRest : List Char → Bool
  | [] => true
  | '_' :: rest =>
      match rest with
      | d :: r => pyIsDigit d && pyIntRest r
      | [] => false
  | c :: rest => pyIsDigit c && pyIntRest rest

/-- Body of a Python integer literal: one digit, then `pyIntRest`. -/
def pyIntBody : List Char → Bool
  | [] => false
  | c :: rest => pyIsDigit c && pyIntRest rest

/-- Python `int(token)` on a whitespace-free token: optional sign, then
a digit string (underscores allowed between digits); `none` models the
`ValueError` raised otherwise. -/
def pyIntParse (tok : List Char) : Option Int :=
  match tok with
  | '+' :: r => if pyIntBody r then some (digitsVal (r.filter (· ≠ '_'))) else none
  | '-' :: r => if pyIntBody r then some (-(digitsVal (r.filter (· ≠ '_')) : Int)) else none
  | _ => if pyIntBody tok then some (digitsVal (tok.filter (· ≠ '_'))) else none

def natDigitChar (n : Nat) : Char := Char.ofNat ('0'.toNat + n)

/-- Canonical decimal rendering, on explicit fuel so that the kernel
can evaluate it (`fuel > n` suffices). -/
def natToDecAux : Nat → Nat → List Char
  | 0, _ => []
  | fuel + 1, n =>
      if n < 10 then [natDigitChar n]
      else natToDecAux fuel (n / 10) ++ [natDigitChar (n % 10)]

/-- Canonical decimal rendering of a natural number, as Python `str`. -/
def natToDec (n : Nat) : List Char :=
  natToDecAux (n + 1) n

/-- Python `str()` of an `int`. -/
def intToDec (i : Int) : List Char :=
  if i < 0 then '-' :: natToDec i.natAbs else natToDec i.natAbs

/-! ## Unit-suffix parser (`core/utils.py`, `parse_float`)

The regex `([-+]?\d*\.?\d+(?:[eE][-+]?\d+)?)\s*([a-zA-Z]+)?` is embedded
as a direct leftmost matcher with the same backtracking behaviour; the
extracted value is modelled as a rational (the exact value denoted by the
decimal literal). -/

def spanDigits (cs : List Char) : List Char × List Char :=
  (cs.takeWhile pyIsDigit, cs.dropWhile pyIsDigit)

/-- The mantissa part `\d*\.?\d+` at the current position: returns the
integer digits, the fraction digits and the remaining text.  Greedy with
backtracking: `"12.5"` gives `("12","5")`, `"12."` gives `("12","")`
(the dot is left unconsumed), `".5"` gives `("",".5"→("","5"))`. -/
def matchMantissa (cs : List Char) : Option (List Char × List Char × List Char) :=
  let p := spanDigits cs
  match p.2 with
  | c :: r2 =>
      if c = '.' then
        let p2 := spanDigits r2
        if p2.1.isEmpty then
          if p.1.isEmpty then none else some (p.1, [], p.2)
        else some (p.1, p2.1, p2.2)
      else if p.1.isEmpty then none else some (p.1, [], p.2)
  | [] => if p.1.isEmpty then none else some (p.1, [], p.2)

/-- The optional exponent `(?:[eE][-+]?\d+)?`: returns the exponent and
the remaining text (consuming nothing if the group does not match). -/
def matchExp (cs : List Char) : Int × List Char :=
  match cs with
  | [] => (0, [])
  | c :: r =>
      if c = 'e' || c = 'E' then
        let sr : Int × List Char :=
          match r with
          | s :: t => if s = '+' then (1, t) else if s = '-' then (-1, t) else (1, r)
          | [] => (1, r)
        let p := spanDigits sr.2
        if p.1.isEmpty then (0, cs) else (sr.1 * (digitsVal p.1 : Int), p.2)
      else (0, cs)

/-- The pieces of the matched numeric group: sign, integer digits,
fraction digits, exponent. -/
structure NumParts where
  sgn : Int
  d1 : List Char
  d2 : List Char
  e : Int
  deriving DecidableEq

/-- The sign-free part of the numeric group: mantissa then optional
exponent. -/
def numBodyAt (sgn : Int) (r : List Char) : Option (NumParts × List Char) :=
  match matchMantissa r with
  | none => none
  | some (d1, d2, r1) =>
      let er := matchExp r1
      some ({ sgn := sgn, d1 := d1, d2 := d2, e := er.1 }, er.2)

/-- Number (group 1 of the regex) starting exactly here: optional sign,
mantissa, optional exponent. -/
def matchNumber (cs : List Char) : Option (NumParts × List Char) :=
  match cs with
  | c :: r =>
      if c = '+' then numBodyAt 1 r
      else if c = '-' then numBodyAt (-1) r
      else numBodyAt 1 cs
  | [] => numBodyAt 1 []

/-- `re.search` for the numeric group: try each position left to right. -/
def reSearchNum : List Char → Option (NumParts × List Char)
  | [] => none
  | c :: rest =>
      match matchNumber (c :: rest) with
      | some v => some v
      | none => reSearchNum rest

/-- The `_UNIT` dictionary of `core/utils.py`, as powers of ten:
`hz → 1`, `khz → 1e3`, `mhz → 1e6`, `ghz → 1e9`; an unrecognized (or
empty) suffix leaves the value unscaled. -/
def unitExp (u : List Char) : Nat :=
  if u = "hz".data then 0
  else if u = "khz".data then 3
  else if u = "mhz".data then 6
  else if u = "ghz".data then 9
  else 0

/-- The same dictionary as a rational multiplier, for statements. -/
def unitMult (u : List Char) : ℚ :=
  if u = "hz".data then 1
  else if u = "khz".data then 1000
  else if u = "mhz".data then 1000000
  else if u = "ghz".data then 1000000000
  else 1

/-- Exact value of a decimal mantissa `d1 . d2`, for statements. -/
def mantVal (d1 d2 : List Char) : ℚ :=
  (digitsVal d1 : ℚ) + (digitsVal d2 : ℚ) / (10 : ℚ) ^ d2.length

/-- The exact rational `sgn · D · 10^E`, assembled through `mkRat` so
that the kernel can evaluate it on concrete inputs. -/
def sciQ (sgn : Int) (D : Nat) (E : Int) : ℚ :=
  mkRat (sgn * (D : Int) * 10 ^ E.toNat) (10 ^ (-E).toNat)

/-- `core.utils.parse_float`.  The float `float(m.group(1))` scaled by
the unit multiplier is modelled by the exact value of the decimal
literal: `sgn · (d1d2) · 10^(e + unit − |d2|)`. -/
def parse_float (s : List Char) : Option ℚ :=
  if s.isEmpty then none
  else
    let t := pyStrip s
    match reSearchNum t with
    | none => none
    | some (p, rest) =>
        let rest2 := rest.dropWhile pyIsSpace
        let unit := pyLower (rest2.takeWhile pyIsAlpha)
        some (sciQ p.sgn (digitsVal (p.d1 ++ p.d2)) (p.e + unitExp unit - p.d2.length))

/-! ## Simulator driver (`drivers/fake_meter.py`, class `FakeMeter`) -/

/-- State of a `FakeMeter` instance: `inst` is the truthiness of
`self.inst` (set to `None` by `close`), `freq_hz` is `self._freq_hz`. -/
structure FakeMeter where
  inst : Bool
  freq_hz : Int
  deriving DecidableEq

/-- `FakeMeter.__init__`: connected marker set, frequency 1 GHz. -/
def FakeMeter.new : FakeMeter := { inst := true, freq_hz := 1000000000 }

/-- `FakeMeter.connect`: only the reserved address (case-insensitively)
is accepted; anything else raises.  The state is untouched. -/
def FakeMeter.connect (resource : List Char) : Except (List Char) Unit :=
  if pyUpper resource = "FAKE".data then .ok ()
  else .error "FakeMeter: неверный ресурс (ожидалось 'FAKE')".data

/-- `FakeMeter.query`.  `powText` stands for the string the Python code
builds from a fresh uniform sample in [-50.0, -40.0] formatted with
three decimals (`f-string` of `random.uniform(-50.0, -40.0)`); its value
is irrelevant to every claim below, so it is passed in as an oracle. -/
def FakeMeter.query (st : FakeMeter) (powText : List Char) (cmd : List Char) : List Char :=
  let c := pyUpper (pyStrip cmd)
  if listStartsWith "*IDN?".data c then "FAKE,USB Power Sensor Simulator,0,1.0".data
  else if listStartsWith "MEAS:POW?".data c || listStartsWith "READ?".data c
          || listStartsWith "FETC:POW?".data c then powText
  else if listStartsWith "SENS:FREQ?".data c || listStartsWith "FREQ?".data c then
    intToDec st.freq_hz
  else "0".data

/-- `FakeMeter.write`: zero commands are no-ops; frequency-set commands
parse the last whitespace token of the upper-cased command as an `int`
and store it, with every failure (`IndexError`, `ValueError`) swallowed;
all other commands are ignored. -/
def FakeMeter.write (st : FakeMeter) (cmd : List Char) : FakeMeter :=
  let c := pyUpper (pyStrip cmd)
  if listStartsWith "SENS:POW:ZERO:IMM".data c || listStartsWith "CAL:ZERO".data c then
    st
  else if listStartsWith "SENS:FREQ ".data c || listStartsWith "FREQ ".data c then
    match (pyWords c).getLast? with
    | none => st
    | some tok =>
        match pyIntParse tok with
        | none => st
        | some v => { st with freq_hz := v }
  else st

/-- `FakeMeter.idn`. -/
def FakeMeter.idn : List Char := "Фейкметрон,USB Power Sensor Simulator,0,1.0".data

/-- `FakeMeter.close`: `self.inst = None`. -/
def FakeMeter.close (st : FakeMeter) : FakeMeter := { st with inst := false }

/-! ## Environment for the real transport

All effects the Python code obtains from `pyvisa` (and from the
simulator's random generator) are collected in one oracle record. -/

structure Env where
  /-- whether `import pyvisa` succeeded (`HAS_VISA`). -/
  hasVisa : Bool
  /-- outcome of `ResourceManager(be)` + `open_resource(resource)` for a
  backend string and a resource address. -/
  openR : List Char → List Char → Except (List Char) Unit
  /-- whether the best-effort `inst.clear()` succeeds (its failure is
  swallowed by the source). -/
  clearOk : List Char → List Char → Bool
  /-- response of `inst.query(cmd)` on the open session. -/
  respond : List Char → Except (List Char) (List Char)
  /-- outcome of `inst.write(cmd)` on the open session. -/
  writeR : List Char → Except (List Char) Unit
  /-- `rm.list_resources("USB?*::INSTR")` per backend. -/
  listRes : List Char → Except (List Char) (List (List Char))
  /-- the formatted random power reading of the simulator. -/
  powText : List Char

/-- The error text of `raise RuntimeError("Нет соединения")`. -/
def notConnectedErr : List Char := "Нет соединения".data

/-! ## Real driver (`drivers/visa_meter.py`, class `VisaMeter`) -/

structure VisaMeter where
  backend_order : List (List Char)
  /-- truthiness of `self.inst` (an open session or `None`). -/
  inst : Bool
  resource : Option (List Char)
  backend_in_use : Option (List Char)
  deriving DecidableEq

/-- `VisaMeter.__init__` (the `HAS_VISA` guard of the constructor is
checked by the caller embedding, `Meter.connect`). -/
def VisaMeter.new (backends : List (List Char)) : VisaMeter :=
  { backend_order := backends, inst := false, resource := none, backend_in_use := none }

/-- `VisaMeter._close_unlocked`. -/
def VisaMeter.close (st : VisaMeter) : VisaMeter :=
  { st with inst := false, resource := none, backend_in_use := none }

def VisaMeter.is_connected_to (st : VisaMeter) (resource : List Char) : Bool :=
  st.inst && st.resource = some resource

/-- `raise last_err or RuntimeError("Не удалось открыть ресурс")`. -/
def visaDefaultErr : List Char := "Не удалось открыть ресурс".data

/-- The backend loop of `VisaMeter.connect`: returns the outcome (the
name stored in `backend_in_use` on success, the raised error on failure)
together with the list of backends actually attempted.  `inst.clear()`
sits in a `try/except: pass`, so both of its outcomes continue
identically. -/
def tryBackends (env : Env) (resource : List Char) :
    List (List Char) → Option (List Char) → Except (List Char) (List Char) × List (List Char)
  | [], lastErr => (.error (lastErr.getD visaDefaultErr), [])
  | be :: rest, _ =>
      match env.openR be resource with
      | .ok _ =>
          let name := if be.isEmpty then "default".data else be
          (if env.clearOk be resource then .ok name else .ok name, [be])
      | .error e =>
          let r := tryBackends env resource rest (some e)
          (r.1, be :: r.2)

/-- `VisaMeter.connect` (the third component is the trace of backends
attempted with `open_resource`). -/
def VisaMeter.connect (env : Env) (st : VisaMeter) (resource : List Char) :
    Except (List Char) Unit × VisaMeter × List (List Char) :=
  if st.is_connected_to resource then (.ok (), st, [])
  else
    let st1 := st.close
    match tryBackends env resource st1.backend_order none with
    | (.ok bname, tr) =>
        let st2 := { st1 with inst := true, resource := some resource, backend_in_use := some bname }
        (.ok (), st2, tr)
    | (.error e, tr) => (.error e, st1, tr)

def VisaMeter.query (env : Env) (st : VisaMeter) (cmd : List Char) :
    Except (List Char) (List Char) :=
  if st.inst then env.respond cmd else .error notConnectedErr

def VisaMeter.write (env : Env) (st : VisaMeter) (cmd : List Char) :
    Except (List Char) Unit :=
  if st.inst then env.writeR cmd else .error notConnectedErr

/-- `VisaMeter.idn`: the identification query, with any failure mapped
to the empty string. -/
def VisaMeter.idn (env : Env) (st : VisaMeter) : List Char :=
  match st.query env "*IDN?".data with
  | .ok r => r
  | .error _ => []

/-! ## Connection facade (`core/meter.py`, class `Meter`) -/

inductive Impl where
  | fake (st : FakeMeter)
  | visa (st : VisaMeter)
  deriving DecidableEq

structure Meter where
  backend_order : List (List Char)
  backend_in_use : Option (List Char)
  impl : Option Impl
  resource : Option (List Char)
  deriving DecidableEq

def Meter.new (backends : List (List Char)) : Meter :=
  { backend_order := backends, backend_in_use := none, impl := none, resource := none }

def Meter.is_connected_to (st : Meter) (resource : List Char) : Bool :=
  st.impl.isSome && st.resource = some resource

/-- `Meter.close`: the active implementation (if any) is closed and
dropped; all three fields are reset in the `finally` block. -/
def Meter.close (st : Meter) : Meter :=
  { st with impl := none, backend_in_use := none, resource := none }

/-- One "driver open" event: creation+connect of a `FakeMeter`, or one
`open_resource` attempt of a `VisaMeter` backend. -/
inductive OpenEv where
  | fakeOpen
  | visaTry (be : List Char)
  deriving DecidableEq

/-- `Meter.connect`: normalize for the `"FAKE"` comparison, return early
when already connected to the very same string, otherwise close and
dispatch to the simulator or the real driver.  The constructor of
`VisaMeter` raises when pyvisa is absent.  The third component traces
the driver opens performed. -/
def Meter.connect (env : Env) (st : Meter) (resource : List Char) :
    Except (List Char) Unit × Meter × List OpenEv :=
  let resUpper := pyUpper (pyStrip resource)
  if st.is_connected_to resource then (.ok (), st, [])
  else
    let st1 := st.close
    if resUpper = "FAKE".data then
      let st2 := { st1 with impl := some (.fake FakeMeter.new) }
      match FakeMeter.connect "FAKE".data with
      | .ok _ =>
          let st3 := { st2 with backend_in_use := some "FAKE".data, resource := some "FAKE".data }
          (.ok (), st3, [.fakeOpen])
      | .error e => (.error e, st2, [.fakeOpen])
    else
      if env.hasVisa then
        match VisaMeter.connect env (VisaMeter.new st1.backend_order) resource with
        | (.ok _, v1, tr) =>
            let st2 := { st1 with impl := some (.visa v1), backend_in_use := v1.backend_in_use, resource := some resource }
            (.ok (), st2, tr.map .visaTry)
        | (.error e, _, tr) => (.error e, st1, tr.map .visaTry)
      else (.error "PyVISA не установлен".data, st1, [])

/-- `Meter.query`: delegate, or `RuntimeError("Нет соединения")`. -/
def Meter.query (env : Env) (st : Meter) (cmd : List Char) :
    Except (List Char) (List Char) :=
  match st.impl with
  | none => .error notConnectedErr
  | some (.fake f) => .ok (f.query env.powText cmd)
  | some (.visa v) => v.query env cmd

/-- `Meter.write`: delegate, or `RuntimeError("Нет соединения")`; the
simulator's write mutates its stored frequency, so the updated facade
state is returned alongside. -/
def Meter.write (env : Env) (st : Meter) (cmd : List Char) :
    Except (List Char) Unit × Meter :=
  match st.impl with
  | none => (.error notConnectedErr, st)
  | some (.fake f) => (.ok (), { st with impl := some (.fake (f.write cmd)) })
  | some (.visa v) => (v.write env cmd, st)

/-- The fixed placeholder `Meter.idn` returns with no active driver. -/
def meterIdnPlaceholder : List Char := "Фейкометр 1.0".data

/-- `Meter.idn`. -/
def Meter.idn (env : Env) (st : Meter) : List Char :=
  match st.impl with
  | none => meterIdnPlaceholder
  | some (.fake _) => FakeMeter.idn
  | some (.visa v) => v.idn env

/-- A concrete environment for witnesses: pyvisa present, every backend
open and every transport operation failing, no discovered resources. -/
def envFail : Env :=
  { hasVisa := true
    openR := fun _ _ => .error "open failed".data
    clearOk := fun _ _ => true
    respond := fun _ => .error "io".data
    writeR := fun _ => .error "io".data
    listRes := fun _ => .error "no backend".data
    powText := "-45.000".data }

/-- A concrete environment for witnesses: pyvisa present, every backend
open succeeding, transport queries answering a fixed reading. -/
def envOk : Env :=
  { hasVisa := true
    openR := fun _ _ => .ok ()
    clearOk := fun _ _ => true
    respond := fun _ => .ok "-43.5".data
    writeR := fun _ => .ok ()
    listRes := fun _ => .ok ["USB0::INSTR".data]
    powText := "-45.000".data }

/-- A concrete environment for witnesses: the `@py` backend fails to
open, the system-default backend succeeds. -/
def envSecond : Env :=
  { hasVisa := true
    openR := fun be _ => if be = "@py".data then .error "no @py".data else .ok ()
    clearOk := fun _ _ => true
    respond := fun _ => .ok "-43.5".data
    writeR := fun _ => .ok ()
    listRes := fun _ => .ok []
    powText := "-45.000".data }

/-- `envOk` with a failing buffer clear, for the clear-irrelevance
witness. -/
def envOkNoClear : Env :=
  { envOk with clearOk := fun _ _ => false }

/-- A concrete environment for witnesses: two backends that report
overlapping address lists. -/
def envDup : Env :=
  { hasVisa := true
    openR := fun _ _ => .ok ()
    clearOk := fun _ _ => true
    respond := fun _ => .ok "-43.5".data
    writeR := fun _ => .ok ()
    listRes := fun be =>
      if be = "@py".data then .ok ["A".data, "B".data] else .ok ["B".data, "C".data]
    powText := "-45.000".data }

/-! ## Discovery (`drivers/discovery.py`) and the controller's scan -/

/-- `DEFAULT_BACKENDS = ["@py", ""]` from `core/constants.py`. -/
def DEFAULT_BACKENDS : List (List Char) := ["@py".data, []]

/-- One step of the `seen`/`addrs` accumulation: append if unseen. -/
def dedupStep {α : Type} [DecidableEq α] (a : List α) (r : α) : List α :=
  if r ∈ a then a else a ++ [r]

/-- The inner `for r in res` loop of `scan_usb_usbtmc`. -/
def scanInner (acc : List (List Char)) (res : List (List Char)) : List (List Char) :=
  res.foldl dedupStep acc

/-- The backend loop of `scan_usb_usbtmc`: a failing
`list_resources` is swallowed and contributes nothing. -/
def scanGo (env : Env) : List (List Char) → List (List Char) → List (List Char)
  | [], acc => acc
  | be :: rest, acc =>
      match env.listRes be with
      | .error _ => scanGo env rest acc
      | .ok res => scanGo env rest (scanInner acc res)

/-- `drivers.discovery.scan_usb_usbtmc`. -/
def scan_usb_usbtmc (env : Env) (backends : List (List Char)) : List (List Char) :=
  if env.hasVisa then scanGo env backends [] else []

/-- `MeasurementController.scan` (`core/controller.py`): the union of
the backends' results, with `"FAKE"` appended when absent. -/
def controllerScan (env : Env) : List (List Char) :=
  let addrs := scan_usb_usbtmc env DEFAULT_BACKENDS
  if "FAKE".data ∈ addrs then addrs else addrs ++ ["FAKE".data]

/-- Modelled from the spec's words for comparison ("deduplicated union,
preserving first-seen order across backends"): keep the first occurrence
of each address of the concatenated successful backend results. -/
def dedupFirst {α : Type} [DecidableEq α] (l : List α) : List α :=
  l.foldl dedupStep []

/-- The concatenation, in backend order, of the successful
`list_resources` results (failing backends contribute nothing). -/
def scanSuccesses (env : Env) : List (List Char) → List (List Char)
  | [] => []
  | be :: rest =>
      match env.listRes be with
      | .error _ => scanSuccesses env rest
      | .ok res => res ++ scanSuccesses env rest

/-! ## Peak tracking and the poll-loop body (`ui_tk/app.py`) -/

/-- The peak update of `App._poll_loop`:
`if self.peak_value is None or val > self.peak_value`. -/
def peakStep (p : Option ℚ) (v : ℚ) : Option ℚ :=
  match p with
  | none => some v
  | some q => if v > q then some v else some q

/-- Peak after a sequence of successfully parsed readings. -/
def peakFold (p : Option ℚ) (vs : List ℚ) : Option ℚ :=
  vs.foldl peakStep p

/-- One `_poll_loop` iteration's effect on the peak, given the raw text
the power query returned: only a successful `parse_float` updates it. -/
def pollBodyPeak (p : Option ℚ) (raw : List Char) : Option ℚ :=
  match parse_float raw with
  | some v => peakStep p v
  | none => p

/-- Maximum of a list of readings. -/
def listMax : List ℚ → Option ℚ
  | [] => none
  | x :: xs => some (xs.foldl max x)

/-- "Not larger": an unset peak is below everything; a set peak may only
grow.  Used to phrase monotonicity of the peak tracker. -/
def optLe (p q : Option ℚ) : Prop :=
  ∀ x, p = some x → ∃ y, q = some y ∧ x ≤ y

/-- `App.on_zero`: send the zero command; only on success is the peak
cleared (the error path keeps displayed values). -/
def onZero (env : Env) (st : Meter) (peak : Option ℚ) : Meter × Option ℚ :=
  match Meter.write env st "SENS:POW:ZERO:IMM".data with
  | (.ok _, st2) => (st2, none)
  | (.error _, st2) => (st2, peak)

/-- `App.on_connect`, reduced to the meter state and the peak: an
address already active returns early ("Already connected"); otherwise a
successful `Meter.connect` clears the peak, a failing one keeps it. -/
def onConnect (env : Env) (st : Meter) (peak : Option ℚ) (res : List Char) :
    Meter × Option ℚ × Except (List Char) Unit :=
  if st.is_connected_to res then (st, peak, .ok ())
  else
    match Meter.connect env st res with
    | (.ok _, st2, _) => (st2, none, .ok ())
    | (.error e, st2, _) => (st2, peak, .error e)

/-! ## Interleaving model of the polling worker and `_stop_polling`

`_poll_loop` runs on its own thread; `_stop_polling` (main thread) sets
`stop_flag` and joins with `timeout=1.0`.  Real time is abstracted away:
the bounded join is a nondeterministic choice between observing the
worker finished and timing out while it still runs. -/

namespace Poll

/-- Program counter of the worker thread: the top-of-loop flag check,
the power query, the `queue.put`, the `time.sleep`, or loop exit. -/
inductive WPc where
  | check | query | put | sleep | done
  deriving DecidableEq

/-- Program counter of the main thread inside `_stop_polling`:
`stop_flag.set()`, `poll_thread.join(timeout=1.0)`, returned. -/
inductive MPc where
  | set | join | ret
  deriving DecidableEq

structure Cfg where
  /-- `stop_flag`. -/
  flag : Bool
  /-- number of outcomes put on `read_queue` so far. -/
  q : Nat
  w : WPc
  m : MPc
  deriving DecidableEq

/-- Scheduler actions: one worker step, or one main-thread step (the
join either sees the worker dead, or times out while it is alive). -/
inductive Act where
  | wStep | mSet | mJoinOk | mJoinTimeout
  deriving DecidableEq

/-- The labelled step function.  Both the success and the exception path
of the loop body put one outcome on the queue, so the `query → put`
transition is unconditional. -/
def step (c : Cfg) (a : Act) : Option Cfg :=
  match a with
  | .wStep =>
      match c.w with
      | .check => some (if c.flag then { c with w := .done } else { c with w := .query })
      | .query => some { c with w := .put }
      | .put => some { c with w := .sleep, q := c.q + 1 }
      | .sleep => some { c with w := .check }
      | .done => none
  | .mSet => if c.m = .set then some { c with flag := true, m := .join } else none
  | .mJoinOk => if c.m = .join ∧ c.w = .done then some { c with m := .ret } else none
  | .mJoinTimeout => if c.m = .join ∧ c.w ≠ .done then some { c with m := .ret } else none

/-- Run a schedule; `none` when an action is not enabled. -/
def runP (c : Cfg) : List Act → Option Cfg
  | [] => some c
  | a :: rest =>
      match step c a with
      | none => none
      | some c2 => runP c2 rest

/-- Whether one action performs a queue put from worker position `w`. -/
def putInc (a : Act) (w : WPc) : Nat :=
  match a, w with
  | .wStep, .put => 1
  | _, _ => 0

/-- Number of queue puts a schedule performs from `c`. -/
def putsFrom (c : Cfg) : List Act → Nat
  | [] => 0
  | a :: rest =>
      match step c a with
      | none => 0
      | some c2 => putInc a c.w + putsFrom c2 rest

/-- Worker at the top of its loop with the flag clear, main thread about
to execute `_stop_polling`. -/
def init : Cfg := { flag := false, q := 0, w := .check, m := .set }

/-- Bound on the puts the worker can still perform once the stop flag is
set: one iteration may already be past its flag check. -/
def wght : WPc → Nat
  | .query => 1
  | .put => 1
  | _ => 0

end Poll

/-! # Lemmas -/

/-! ## Character classes -/

lemma digit_bounds {c : Char} (h : pyIsDigit c = true) : '0' ≤ c ∧ c ≤ '9' := by
  simpa [pyIsDigit, Bool.and_eq_true, decide_eq_true_eq] using h

lemma pyIsSpace_eq_false_of_digit {c : Char} (h : pyIsDigit c = true) :
    pyIsSpace c = false := by
  obtain ⟨h0, h9⟩ := digit_bounds h
  simp only [pyIsSpace, Bool.or_eq_false_iff, decide_eq_false_iff_not]
  refine ⟨⟨⟨⟨⟨?_, ?_⟩, ?_⟩, ?_⟩, ?_⟩, ?_⟩ <;>
    · rintro rfl
      revert h0 h9
      decide

lemma pyIsAlpha_eq_false_of_digit {c : Char} (h : pyIsDigit c = true) :
    pyIsAlpha c = false := by
  obtain ⟨h0, h9⟩ := digit_bounds h
  have hlt : c < 'A' := lt_of_le_of_lt h9 (by decide)
  simp only [pyIsAlpha, Bool.or_eq_false_iff, Bool.and_eq_false_iff,
    decide_eq_false_iff_not, not_le]
  constructor
  · left
    exact lt_of_lt_of_le hlt (by decide)
  · left
    exact hlt

lemma pyToUpper_digit {c : Char} (h : pyIsDigit c = true) : pyToUpper c = c := by
  obtain ⟨_, h9⟩ := digit_bounds h
  have hlt : c < 'a' := lt_of_le_of_lt h9 (by decide)
  simp only [pyToUpper, Bool.and_eq_true, decide_eq_true_eq]
  rw [if_neg]
  rintro ⟨ha, -⟩
  exact absurd ha (not_le.mpr hlt)

lemma digit_ne_dot {c : Char} (h : pyIsDigit c = true) : c ≠ '.' := by
  obtain ⟨h0, -⟩ := digit_bounds h
  rintro rfl
  revert h0
  decide

lemma digit_ne_underscore {c : Char} (h : pyIsDigit c = true) : c ≠ '_' := by
  obtain ⟨-, h9⟩ := digit_bounds h
  rintro rfl
  revert h9
  decide

lemma digit_ne_plus {c : Char} (h : pyIsDigit c = true) : c ≠ '+' := by
  obtain ⟨h0, -⟩ := digit_bounds h
  rintro rfl
  revert h0
  decide

lemma digit_ne_minus {c : Char} (h : pyIsDigit c = true) : c ≠ '-' := by
  obtain ⟨h0, -⟩ := digit_bounds h
  rintro rfl
  revert h0
  decide

lemma digit_ne_e {c : Char} (h : pyIsDigit c = true) : c ≠ 'e' ∧ c ≠ 'E' := by
  obtain ⟨h0, h9⟩ := digit_bounds h
  constructor <;>
    · rintro rfl
      revert h0 h9
      decide

/-! ## Decimal rendering and `int()` parsing -/

lemma pyIsDigit_natDigitChar {m : Nat} (h : m < 10) : pyIsDigit (natDigitChar m) = true := by
  interval_cases m <;> decide

lemma digitVal_natDigitChar {m : Nat} (h : m < 10) : digitVal (natDigitChar m) = m := by
  interval_cases m <;> decide

lemma natToDecAux_fuel : ∀ (f1 f2 n : Nat), n < f1 → n < f2 →
    natToDecAux f1 n = natToDecAux f2 n := by
  intro f1
  induction f1 with
  | zero => omega
  | succ f ih =>
      intro f2 n h1 h2
      match f2, h2 with
      | f2 + 1, _ =>
        simp only [natToDecAux]
        by_cases hn : n < 10
        · simp [hn]
        · have hd : n / 10 < f ∧ n / 10 < f2 := by
            have := Nat.div_lt_self (show 0 < n by omega) (show 1 < 10 by omega)
            omega
          simp only [if_neg hn]
          rw [ih f2 (n / 10) hd.1 hd.2]

lemma natToDec_unfold (n : Nat) :
    natToDec n = if n < 10 then [natDigitChar n]
                 else natToDec (n / 10) ++ [natDigitChar (n % 10)] := by
  by_cases hn : n < 10
  · simp [natToDec, natToDecAux, hn]
  · have hd := Nat.div_lt_self (show 0 < n by omega) (show 1 < 10 by omega)
    simp only [natToDec, natToDecAux, if_neg hn]
    rw [natToDecAux_fuel n (n / 10 + 1) (n / 10) (by omega) (by omega)]
    simp only [natToDecAux]

lemma natToDec_digits (n : Nat) : ∀ c ∈ natToDec n, pyIsDigit c = true := by
  induction n using Nat.strong_induction_on with
  | _ n ih =>
      rw [natToDec_unfold]
      by_cases hn : n < 10
      · simp only [if_pos hn, List.mem_singleton]
        rintro c rfl
        exact pyIsDigit_natDigitChar hn
      · have hd := Nat.div_lt_self (show 0 < n by omega) (show 1 < 10 by omega)
        simp only [if_neg hn, List.mem_append, List.mem_singleton]
        rintro c (hc | rfl)
        · exact ih (n / 10) hd c hc
        · exact pyIsDigit_natDigitChar (Nat.mod_lt n (by omega))

lemma natToDec_ne_nil (n : Nat) : natToDec n ≠ [] := by
  rw [natToDec_unfold]
  by_cases hn : n < 10 <;> simp [hn]

lemma digitsVal_from (cs : List Char) : ∀ s : Nat,
    cs.foldl (fun a c => 10 * a + digitVal c) s = s * 10 ^ cs.length + digitsVal cs := by
  induction cs with
  | nil => intro s; simp [digitsVal]
  | cons c rest ih =>
      intro s
      simp only [List.foldl_cons, List.length_cons, digitsVal] at *
      rw [ih (10 * s + digitVal c), ih (10 * 0 + digitVal c)]
      ring

lemma digitsVal_append (a b : List Char) :
    digitsVal (a ++ b) = digitsVal a * 10 ^ b.length + digitsVal b := by
  simp only [digitsVal, List.foldl_append]
  rw [digitsVal_from b (List.foldl (fun a c => 10 * a + digitVal c) 0 a)]
  rfl

lemma digitsVal_natToDec (n : Nat) : digitsVal (natToDec n) = n := by
  induction n using Nat.strong_induction_on with
  | _ n ih =>
      rw [natToDec_unfold]
      by_cases hn : n < 10
      · simp only [if_pos hn, digitsVal, List.foldl_cons, List.foldl_nil]
        rw [digitVal_natDigitChar hn]
        omega
      · have hd := Nat.div_lt_self (show 0 < n by omega) (show 1 < 10 by omega)
        simp only [if_neg hn]
        rw [digitsVal_append, ih (n / 10) hd]
        simp only [digitsVal, List.length_singleton, List.foldl_cons, List.foldl_nil]
        rw [digitVal_natDigitChar (Nat.mod_lt n (by omega))]
        omega

lemma pyIntRest_of_digits : ∀ cs : List Char, (∀ c ∈ cs, pyIsDigit c = true) →
    pyIntRest cs = true := by
  intro cs
  induction cs with
  | nil => intro; rfl
  | cons c rest ih =>
      intro h
      have hc : pyIsDigit c = true := h c (by simp)
      have hne : c ≠ '_' := digit_ne_underscore hc
      rw [show pyIntRest (c :: rest) = (pyIsDigit c && pyIntRest rest) from ?_]
      · rw [hc, ih (fun d hd => h d (by simp [hd]))]
        rfl
      · conv_lhs => rw [pyIntRest.eq_def]
        cases rest with
        | nil => simp [hne]
        | cons d r => simp [hne]

lemma pyIntBody_of_digits {cs : List Char} (hne : cs ≠ [])
    (h : ∀ c ∈ cs, pyIsDigit c = true) : pyIntBody cs = true := by
  cases cs with
  | nil => exact absurd rfl hne
  | cons c rest =>
      simp only [pyIntBody, Bool.and_eq_true]
      exact ⟨h c (by simp), pyIntRest_of_digits rest (fun d hd => h d (by simp [hd]))⟩

lemma filter_underscore_of_digits {cs : List Char}
    (h : ∀ c ∈ cs, pyIsDigit c = true) : cs.filter (· ≠ '_') = cs := by
  rw [List.filter_eq_self]
  intro c hc
  simpa using digit_ne_underscore (h c hc)

lemma pyIntParse_natToDec (n : Nat) : pyIntParse (natToDec n) = some (n : Int) := by
  obtain ⟨c, r, e⟩ : ∃ c r, natToDec n = c :: r := by
    cases h : natToDec n with
    | nil => exact absurd h (natToDec_ne_nil n)
    | cons c r => exact ⟨c, r, rfl⟩
  have hdig := natToDec_digits n
  have hc : pyIsDigit c = true := hdig c (by rw [e]; simp)
  have hbody : pyIntBody (natToDec n) = true :=
    pyIntBody_of_digits (natToDec_ne_nil n) hdig
  rw [e] at hbody ⊢
  rw [show pyIntParse (c :: r) =
      (if pyIntBody (c :: r) then some ((digitsVal ((c :: r).filter (· ≠ '_')) : Nat) : Int)
       else none) from ?_]
  · rw [if_pos hbody]
    have : (c :: r).filter (· ≠ '_') = c :: r := by
      apply filter_underscore_of_digits
      rw [← e]; exact hdig
    rw [this, ← e, digitsVal_natToDec]
  · conv_lhs => rw [pyIntParse.eq_def]
    have h1 : c ≠ '+' := digit_ne_plus hc
    have h2 : c ≠ '-' := digit_ne_minus hc
    simp [h1, h2]

/-! ## Strip, upper and split lemmas -/

lemma dropWhile_eq_self_of_head {p : Char → Bool} :
    ∀ cs : List Char, (∀ c, cs.head? = some c → p c = false) → cs.dropWhile p = cs := by
  intro cs h
  cases cs with
  | nil => rfl
  | cons c r =>
      have := h c rfl
      simp [List.dropWhile_cons, this]

lemma pyStrip_eq_self {cs : List Char}
    (h1 : ∀ c, cs.head? = some c → pyIsSpace c = false)
    (h2 : ∀ c, cs.getLast? = some c → pyIsSpace c = false) : pyStrip cs = cs := by
  unfold pyStrip
  rw [dropWhile_eq_self_of_head cs h1]
  rw [dropWhile_eq_self_of_head cs.reverse (by simpa using h2)]
  exact List.reverse_reverse cs

lemma intToDec_chars {i : Int} : ∀ c ∈ intToDec i, pyIsDigit c = true ∨ c = '-' := by
  intro c hc
  unfold intToDec at hc
  by_cases hi : i < 0
  · rw [if_pos hi] at hc
    rcases List.mem_cons.mp hc with rfl | hm
    · right; rfl
    · exact Or.inl (natToDec_digits _ c hm)
  · rw [if_neg hi] at hc
    exact Or.inl (natToDec_digits _ c hc)

lemma intToDec_ne_nil (i : Int) : intToDec i ≠ [] := by
  unfold intToDec
  by_cases hi : i < 0
  · simp [hi]
  · simp [hi, natToDec_ne_nil]

lemma intToDec_not_space {i : Int} : ∀ c ∈ intToDec i, pyIsSpace c = false := by
  intro c hc
  rcases intToDec_chars c hc with hd | rfl
  · exact pyIsSpace_eq_false_of_digit hd
  · decide

lemma pyUpper_append (a b : List Char) : pyUpper (a ++ b) = pyUpper a ++ pyUpper b :=
  List.map_append pyToUpper a b

lemma map_id_of_mem {f : Char → Char} :
    ∀ l : List Char, (∀ c ∈ l, f c = c) → l.map f = l := by
  intro l
  induction l with
  | nil => intro; rfl
  | cons c r ih =>
      intro h
      simp only [List.map_cons, h c (by simp), ih (fun d hd => h d (by simp [hd]))]

lemma pyUpper_intToDec (i : Int) : pyUpper (intToDec i) = intToDec i := by
  apply map_id_of_mem
  intro c hc
  rcases intToDec_chars c hc with hd | rfl
  · exact pyToUpper_digit hd
  · decide

lemma pyWordsAux_chomp : ∀ (w1 cs acc : List Char), (∀ c ∈ w1, pyIsSpace c = false) →
    pyWordsAux (w1 ++ cs) acc = pyWordsAux cs (w1.reverse ++ acc) := by
  intro w1
  induction w1 with
  | nil => intro cs acc _; simp
  | cons c r ih =>
      intro cs acc h
      have hc := h c (by simp)
      simp only [List.cons_append, pyWordsAux, hc, List.append_eq]
      rw [if_neg (by simp [hc])]
      rw [ih cs (c :: acc) (fun d hd => h d (by simp [hd]))]
      simp

lemma pyWordsAux_no_space : ∀ cs acc : List Char, (∀ c ∈ cs, pyIsSpace c = false) →
    cs ≠ [] → pyWordsAux cs acc = [acc.reverse ++ cs] := by
  intro cs
  induction cs with
  | nil => intro acc _ h; exact absurd rfl h
  | cons c r ih =>
      intro acc h _
      have hc := h c (by simp)
      simp only [pyWordsAux, hc]
      rw [if_neg (by simp [hc])]
      by_cases hr : r = []
      · subst hr
        simp [pyWordsAux]
      · rw [ih (c :: acc) (fun d hd => h d (by simp [hd])) hr]
        simp

lemma mem_of_getLast? {α : Type} {l : List α} {c : α} (h : l.getLast? = some c) :
    c ∈ l := by
  obtain ⟨hne, rfl⟩ := List.mem_getLast?_eq_getLast (l := l) (x := c) h
  exact List.getLast_mem hne

lemma listStartsWith_append_true {pat : List Char} :
    ∀ {a : List Char} (b : List Char), listStartsWith pat a = true →
    listStartsWith pat (a ++ b) = true := by
  induction pat with
  | nil => intro a b _; rfl
  | cons p ps ih =>
      intro a b h
      cases a with
      | nil => exact absurd h (by simp [listStartsWith])
      | cons c r =>
          simp only [listStartsWith, Bool.and_eq_true] at h
          simp only [List.cons_append, listStartsWith, Bool.and_eq_true]
          exact ⟨h.1, ih b h.2⟩

lemma listStartsWith_append_false {pat : List Char} :
    ∀ {a : List Char} (b : List Char), listStartsWith pat a = false →
    listStartsWith a pat = false → listStartsWith pat (a ++ b) = false := by
  induction pat with
  | nil => intro a b h _; exact absurd h (by simp [listStartsWith])
  | cons p ps ih =>
      intro a b h h2
      cases a with
      | nil => exact absurd h2 (by simp [listStartsWith])
      | cons c r =>
          simp only [listStartsWith, Bool.and_eq_false_iff] at h h2
          simp only [List.cons_append, listStartsWith, Bool.and_eq_false_iff]
          rcases h with hne | hr
          · exact Or.inl hne
          · rcases h2 with hne | hr2
            · left
              simp only [decide_eq_false_iff_not] at hne ⊢
              exact fun e => hne e.symm
            · exact Or.inr (ih b hr hr2)

lemma pyStrip_concrete_append_intToDec {pre : List Char} (n : Int)
    (hpre : ∃ c r, pre = c :: r ∧ pyIsSpace c = false) :
    pyStrip (pre ++ intToDec n) = pre ++ intToDec n := by
  obtain ⟨c, r, rfl, hc⟩ := hpre
  apply pyStrip_eq_self
  · intro d hd
    simp only [List.cons_append, List.head?_cons, Option.some.injEq] at hd
    subst hd
    exact hc
  · intro d hd
    rw [List.getLast?_append_of_ne_nil _ (intToDec_ne_nil n)] at hd
    exact intToDec_not_space d (mem_of_getLast? hd)

/-- The normalization step of `FakeMeter.write` leaves a frequency-set
command built from a rendered integer unchanged. -/
lemma freq_cmd_norm (pre : List Char) (n : Int)
    (hpre : ∃ c r, pre = c :: r ∧ pyIsSpace c = false)
    (hupper : pyUpper pre = pre) :
    pyUpper (pyStrip (pre ++ intToDec n)) = pre ++ intToDec n := by
  rw [pyStrip_concrete_append_intToDec n hpre, pyUpper_append, hupper, pyUpper_intToDec]

lemma pyWordsAux_space_cons (tok acc : List Char) (hacc : acc ≠ []) :
    pyWordsAux (' ' :: tok) acc = acc.reverse :: pyWordsAux tok [] := by
  show (if pyIsSpace ' ' then
          if acc.isEmpty then pyWordsAux tok []
          else acc.reverse :: pyWordsAux tok []
        else pyWordsAux tok (' ' :: acc)) = acc.reverse :: pyWordsAux tok []
  rw [if_pos (show pyIsSpace ' ' = true from rfl)]
  rw [if_neg]
  simpa using hacc

lemma pyWords_word_space_tok (w tok : List Char)
    (hw : ∀ c ∈ w, pyIsSpace c = false) (hwne : w ≠ [])
    (ht : ∀ c ∈ tok, pyIsSpace c = false) (htne : tok ≠ []) :
    pyWords (w ++ ' ' :: tok) = [w, tok] := by
  unfold pyWords
  rw [pyWordsAux_chomp w (' ' :: tok) [] hw]
  rw [pyWordsAux_space_cons tok (w.reverse ++ []) (by simpa using hwne)]
  rw [pyWordsAux_no_space tok [] ht htne]
  simp

lemma pyIntParse_intToDec (i : Int) : pyIntParse (intToDec i) = some i := by
  by_cases hi : i < 0
  · have e : intToDec i = '-' :: natToDec i.natAbs := by simp [intToDec, hi]
    rw [e]
    rw [show pyIntParse ('-' :: natToDec i.natAbs) =
        (if pyIntBody (natToDec i.natAbs) then
           some (-(digitsVal ((natToDec i.natAbs).filter (· ≠ '_')) : Int))
         else none) from rfl]
    rw [if_pos (pyIntBody_of_digits (natToDec_ne_nil _) (natToDec_digits _))]
    rw [filter_underscore_of_digits (natToDec_digits _), digitsVal_natToDec]
    congr 1
    omega
  · have e : intToDec i = natToDec i.natAbs := by simp [intToDec, hi]
    rw [e, pyIntParse_natToDec]
    congr 1
    omega

/-! ## Simulator lemmas -/

lemma fakeQuery_freq (st : FakeMeter) (pt : List Char) :
    st.query pt "SENS:FREQ?".data = intToDec st.freq_hz := rfl

lemma fakeWrite_sensFreq (st : FakeMeter) (n : Int) :
    st.write ("SENS:FREQ ".data ++ intToDec n) = { st with freq_hz := n } := by
  have hnorm := freq_cmd_norm "SENS:FREQ ".data n
    ⟨'S', "ENS:FREQ ".data, rfl, by decide⟩ (by decide)
  have hz1 : listStartsWith "SENS:POW:ZERO:IMM".data ("SENS:FREQ ".data ++ intToDec n) = false :=
    listStartsWith_append_false _ (by decide) (by decide)
  have hz2 : listStartsWith "CAL:ZERO".data ("SENS:FREQ ".data ++ intToDec n) = false :=
    listStartsWith_append_false _ (by decide) (by decide)
  have hf : listStartsWith "SENS:FREQ ".data ("SENS:FREQ ".data ++ intToDec n) = true :=
    listStartsWith_append_true _ (by decide)
  have hw : pyWords ("SENS:FREQ ".data ++ intToDec n) = ["SENS:FREQ".data, intToDec n] := by
    have e : "SENS:FREQ ".data ++ intToDec n = "SENS:FREQ".data ++ ' ' :: intToDec n := rfl
    rw [e]
    exact pyWords_word_space_tok _ _ (by decide) (by decide)
      intToDec_not_space (intToDec_ne_nil n)
  simp only [FakeMeter.write, hnorm, hz1, hz2, hf, Bool.or_self, Bool.false_or,
    Bool.or_true, if_false, if_true, hw, Bool.false_eq_true]
  simp [pyIntParse_intToDec]

lemma fakeWrite_freq (st : FakeMeter) (n : Int) :
    st.write ("FREQ ".data ++ intToDec n) = { st with freq_hz := n } := by
  have hnorm := freq_cmd_norm "FREQ ".data n
    ⟨'F', "REQ ".data, rfl, by decide⟩ (by decide)
  have hz1 : listStartsWith "SENS:POW:ZERO:IMM".data ("FREQ ".data ++ intToDec n) = false :=
    listStartsWith_append_false _ (by decide) (by decide)
  have hz2 : listStartsWith "CAL:ZERO".data ("FREQ ".data ++ intToDec n) = false :=
    listStartsWith_append_false _ (by decide) (by decide)
  have hs : listStartsWith "SENS:FREQ ".data ("FREQ ".data ++ intToDec n) = false :=
    listStartsWith_append_false _ (by decide) (by decide)
  have hf : listStartsWith "FREQ ".data ("FREQ ".data ++ intToDec n) = true :=
    listStartsWith_append_true _ (by decide)
  have hw : pyWords ("FREQ ".data ++ intToDec n) = ["FREQ".data, intToDec n] := by
    have e : "FREQ ".data ++ intToDec n = "FREQ".data ++ ' ' :: intToDec n := rfl
    rw [e]
    exact pyWords_word_space_tok _ _ (by decide) (by decide)
      intToDec_not_space (intToDec_ne_nil n)
  simp only [FakeMeter.write, hnorm, hz1, hz2, hs, hf, Bool.or_self, Bool.false_or,
    Bool.or_true, if_false, if_true, Bool.false_eq_true, hw]
  simp [pyIntParse_intToDec]

/-! # Claims -/

/-- C6: the simulated frequency starts at 1000000000 (1 GHz), so the
first frequency query answers `"1000000000"`; and for every integer n,
writing `SENS:FREQ n` (or the synonym `FREQ n`, with n rendered in
decimal) makes a subsequent `SENS:FREQ?` query answer the decimal string
of n. -/
theorem c6_simulator_freq_roundtrip :
    FakeMeter.new.freq_hz = 1000000000 ∧
    (∀ pt : List Char, FakeMeter.new.query pt "SENS:FREQ?".data = "1000000000".data) ∧
    (∀ (pt : List Char) (st : FakeMeter) (n : Int),
      (st.write ("SENS:FREQ ".data ++ intToDec n)).query pt "SENS:FREQ?".data = intToDec n ∧
      (st.write ("FREQ ".data ++ intToDec n)).query pt "SENS:FREQ?".data = intToDec n) := by
  refine ⟨rfl, fun pt => rfl, fun pt st n => ⟨?_, ?_⟩⟩
  · rw [fakeWrite_sensFreq]
    exact fakeQuery_freq _ pt
  · rw [fakeWrite_freq]
    exact fakeQuery_freq _ pt

/-- C9: `FakeMeter.write` is best-effort and frame-preserving: it is a
total function (never raises), the zero command and its synonym leave
the state unchanged, a frequency-set command whose trailing token does
not parse as an integer leaves it unchanged, any command matching no
recognized prefix leaves it unchanged, and no write ever changes the
connection marker. -/
theorem c9_simulator_write_frame (st : FakeMeter) (cmd : List Char) :
    (st.write cmd).inst = st.inst ∧
    ((listStartsWith "SENS:POW:ZERO:IMM".data (pyUpper (pyStrip cmd)) = true ∨
      listStartsWith "CAL:ZERO".data (pyUpper (pyStrip cmd)) = true) →
      st.write cmd = st) ∧
    (∀ tok, (pyWords (pyUpper (pyStrip cmd))).getLast? = some tok →
      pyIntParse tok = none → st.write cmd = st) ∧
    ((pyWords (pyUpper (pyStrip cmd))).getLast? = none → st.write cmd = st) ∧
    ((listStartsWith "SENS:POW:ZERO:IMM".data (pyUpper (pyStrip cmd)) = false ∧
      listStartsWith "CAL:ZERO".data (pyUpper (pyStrip cmd)) = false ∧
      listStartsWith "SENS:FREQ ".data (pyUpper (pyStrip cmd)) = false ∧
      listStartsWith "FREQ ".data (pyUpper (pyStrip cmd)) = false) →
      st.write cmd = st) := by
  refine ⟨?_, ?_, ?_, ?_, ?_⟩
  · simp only [FakeMeter.write]
    split
    · rfl
    · split
      · split
        · rfl
        · split <;> rfl
      · rfl
  · intro h
    rcases h with h | h <;> simp [FakeMeter.write, h]
  · intro tok htok hnone
    simp only [FakeMeter.write]
    split
    · rfl
    · split
      · simp [htok, hnone]
      · rfl
  · intro he
    simp only [FakeMeter.write]
    split
    · rfl
    · split
      · simp [he]
      · rfl
  · rintro ⟨ha, hb, hc2, hd⟩
    simp [FakeMeter.write, ha, hb, hc2, hd]

/-- Witness for C9: a zero command, a frequency-set command with an
unparseable token, and an unrecognized command, all on a fresh
simulator. -/
theorem c9_witness :
    FakeMeter.new.write "SENS:POW:ZERO:IMM".data = FakeMeter.new ∧
    FakeMeter.new.write "SENS:FREQ X".data = FakeMeter.new ∧
    FakeMeter.new.write "*RST".data = FakeMeter.new := by
  have h1 := c9_simulator_write_frame FakeMeter.new "SENS:POW:ZERO:IMM".data
  have h2 := c9_simulator_write_frame FakeMeter.new "SENS:FREQ X".data
  have h3 := c9_simulator_write_frame FakeMeter.new "*RST".data
  exact ⟨h1.2.1 (Or.inl (by decide)), h2.2.2.1 "X".data (by decide) (by decide),
    h3.2.2.2.2 (by decide)⟩

/-- C5 support: the backend loop folds the deduplicating step over the
concatenation of the successful backend results. -/
lemma scanGo_eq_foldl (env : Env) : ∀ (bes : List (List Char)) (acc : List (List Char)),
    scanGo env bes acc = (scanSuccesses env bes).foldl dedupStep acc := by
  intro bes
  induction bes with
  | nil => intro acc; rfl
  | cons be rest ih =>
      intro acc
      simp only [scanGo, scanSuccesses]
      cases env.listRes be with
      | error e =>
          dsimp only
          exact ih acc
      | ok res =>
          dsimp only
          rw [ih (scanInner acc res)]
          simp [scanInner, List.foldl_append]

lemma mem_dedupStep {α : Type} [DecidableEq α] (a : List α) (x y : α) :
    y ∈ dedupStep a x ↔ y ∈ a ∨ y = x := by
  unfold dedupStep
  by_cases h : x ∈ a
  · rw [if_pos h]
    constructor
    · exact Or.inl
    · rintro (hy | rfl)
      · exact hy
      · exact h
  · rw [if_neg h]
    simp

lemma mem_foldl_dedupStep {α : Type} [DecidableEq α] :
    ∀ (l acc : List α) (y : α), y ∈ l.foldl dedupStep acc ↔ y ∈ acc ∨ y ∈ l := by
  intro l
  induction l with
  | nil => intro acc y; simp
  | cons x rest ih =>
      intro acc y
      simp only [List.foldl_cons]
      rw [ih (dedupStep acc x) y, mem_dedupStep]
      simp only [List.mem_cons]
      tauto

lemma nodup_foldl_dedupStep {α : Type} [DecidableEq α] :
    ∀ (l acc : List α), acc.Nodup → (l.foldl dedupStep acc).Nodup := by
  intro l
  induction l with
  | nil => intro acc h; exact h
  | cons x rest ih =>
      intro acc h
      apply ih
      unfold dedupStep
      by_cases hx : x ∈ acc
      · rwa [if_pos hx]
      · rw [if_neg hx]
        simp [List.nodup_append, h, hx]

lemma mem_scanSuccesses (env : Env) : ∀ (bes : List (List Char)) (r : List Char),
    r ∈ scanSuccesses env bes ↔ ∃ be ∈ bes, ∃ res, env.listRes be = .ok res ∧ r ∈ res := by
  intro bes
  induction bes with
  | nil => intro r; simp [scanSuccesses]
  | cons be rest ih =>
      intro r
      simp only [scanSuccesses]
      cases hbe : env.listRes be with
      | error e =>
          rw [ih r]
          constructor
          · rintro ⟨b, hb, res, hres, hr⟩
            exact ⟨b, by simp [hb], res, hres, hr⟩
          · rintro ⟨b, hb, res, hres, hr⟩
            rcases List.mem_cons.mp hb with rfl | hb
            · rw [hbe] at hres
              cases hres
            · exact ⟨b, hb, res, hres, hr⟩
      | ok res0 =>
          rw [List.mem_append, ih r]
          constructor
          · rintro (hr | ⟨b, hb, res, hres, hr⟩)
            · exact ⟨be, by simp, res0, hbe, hr⟩
            · exact ⟨b, by simp [hb], res, hres, hr⟩
          · rintro ⟨b, hb, res, hres, hr⟩
            rcases List.mem_cons.mp hb with rfl | hb
            · rw [hbe] at hres
              cases hres
              exact Or.inl hr
            · exact Or.inr ⟨b, hb, res, hres, hr⟩

/-- C5: with pyvisa available, discovery equals the spec's reference
form — the first-occurrence deduplication of the concatenated successful
backend results — so each distinct address appears exactly once in
first-seen order; a failing backend is skipped and aborts nothing; and
the controller appends the literal `"FAKE"` exactly when it is absent. -/
theorem c5_discovery_dedup_fake (env : Env) (backends : List (List Char))
    (hv : env.hasVisa = true) :
    scan_usb_usbtmc env backends = dedupFirst (scanSuccesses env backends) ∧
    (scan_usb_usbtmc env backends).Nodup ∧
    (∀ r, r ∈ scan_usb_usbtmc env backends ↔
      ∃ be ∈ backends, ∃ res, env.listRes be = .ok res ∧ r ∈ res) ∧
    (∀ be rest e, env.listRes be = .error e →
      scan_usb_usbtmc env (be :: rest) = scan_usb_usbtmc env rest) ∧
    "FAKE".data ∈ controllerScan env ∧
    ("FAKE".data ∈ scan_usb_usbtmc env DEFAULT_BACKENDS →
      controllerScan env = scan_usb_usbtmc env DEFAULT_BACKENDS) ∧
    ("FAKE".data ∉ scan_usb_usbtmc env DEFAULT_BACKENDS →
      controllerScan env = scan_usb_usbtmc env DEFAULT_BACKENDS ++ ["FAKE".data]) := by
  have hscan : ∀ bes : List (List Char),
      scan_usb_usbtmc env bes = (scanSuccesses env bes).foldl dedupStep [] := by
    intro bes
    simp only [scan_usb_usbtmc, hv, if_true]
    exact scanGo_eq_foldl env bes []
  refine ⟨hscan backends, ?_, ?_, ?_, ?_, ?_, ?_⟩
  · rw [hscan backends]
    exact nodup_foldl_dedupStep _ [] List.nodup_nil
  · intro r
    rw [hscan backends, mem_foldl_dedupStep, mem_scanSuccesses]
    simp
  · intro be rest e hbe
    simp only [scan_usb_usbtmc, hv, if_true, scanGo, hbe]
  · unfold controllerScan
    by_cases h : "FAKE".data ∈ scan_usb_usbtmc env DEFAULT_BACKENDS
    · rw [if_pos h]
      exact h
    · rw [if_neg h]
      simp
  · intro h
    unfold controllerScan
    rw [if_pos h]
  · intro h
    unfold controllerScan
    rw [if_neg h]

/-- Witness for C5: two backends reporting overlapping lists; the union
keeps first-seen order, drops the duplicate, and gains `"FAKE"`. -/
theorem c5_witness :
    scan_usb_usbtmc envDup DEFAULT_BACKENDS
        = dedupFirst (scanSuccesses envDup DEFAULT_BACKENDS) ∧
    (scan_usb_usbtmc envDup DEFAULT_BACKENDS).Nodup ∧
    scan_usb_usbtmc envDup DEFAULT_BACKENDS = ["A".data, "B".data, "C".data] ∧
    controllerScan envDup = ["A".data, "B".data, "C".data, "FAKE".data] := by
  have h := c5_discovery_dedup_fake envDup DEFAULT_BACKENDS rfl
  exact ⟨h.1, h.2.1, by decide, by decide⟩

/-- C2 support: if every backend of the list fails, the loop attempts
them all and raises the error of the last one. -/
lemma tryBackends_all_fail (env : Env) (resource : List Char) :
    ∀ (bes : List (List Char)) (le : Option (List Char)) (beL eL : List Char),
    bes.getLast? = some beL → env.openR beL resource = .error eL →
    (∀ be ∈ bes, ∃ e, env.openR be resource = .error e) →
    tryBackends env resource bes le = (.error eL, bes) := by
  intro bes
  induction bes with
  | nil => intro le beL eL hL _ _; cases hL
  | cons be rest ih =>
      intro le beL eL hL hLerr hall
      obtain ⟨e, he⟩ := hall be (by simp)
      cases hrest : rest with
      | nil =>
          subst hrest
          simp only [List.getLast?_singleton, Option.some.injEq] at hL
          subst hL
          rw [he] at hLerr
          cases hLerr
          simp [tryBackends, he]
      | cons b2 r2 =>
          rw [← hrest]
          have hLr : rest.getLast? = some beL := by
            rw [hrest] at hL ⊢
            rw [← hL]
            exact (List.getLast?_cons_cons ..).symm
          simp only [tryBackends, he]
          rw [ih (some e) beL eL hLr hLerr (fun b hb => hall b (by simp [hb]))]

/-- C2 support: the first backend that opens the address wins, and the
loop stops there — exactly the failing prefix and the winner are
attempted. -/
lemma tryBackends_first_success (env : Env) (resource : List Char) :
    ∀ (pre : List (List Char)) (be : List Char) (post : List (List Char))
      (le : Option (List Char)),
    (∀ b ∈ pre, ∃ e, env.openR b resource = .error e) →
    env.openR be resource = .ok () →
    tryBackends env resource (pre ++ be :: post) le =
      (.ok (if be.isEmpty then "default".data else be), pre ++ [be]) := by
  intro pre
  induction pre with
  | nil =>
      intro be post le _ hok
      simp [tryBackends, hok, ite_self]
  | cons b pre' ih =>
      intro be post le hall hok
      obtain ⟨e, he⟩ := hall b (by simp)
      simp only [List.cons_append, tryBackends, he, List.append_eq]
      rw [ih be post (some e) (fun x hx => hall x (by simp [hx])) hok]

/-- C2 support: the backend loop consults only `openR` (the buffer
clear's outcome is swallowed by the `try/except: pass`). -/
lemma tryBackends_clear_irrelevant (env env' : Env) (resource : List Char)
    (h : env.openR = env'.openR) :
    ∀ (bes : List (List Char)) (le : Option (List Char)),
    tryBackends env resource bes le = tryBackends env' resource bes le := by
  intro bes
  induction bes with
  | nil => intro le; rfl
  | cons be rest ih =>
      intro le
      simp only [tryBackends, h]
      cases env'.openR be resource with
      | error e =>
          dsimp only
          rw [ih (some e)]
      | ok u =>
          dsimp only
          rw [ite_self, ite_self]

/-- C2: on a driver not already holding the address, connect tries the
configured backends strictly in order — the first success wins with the
remaining backends untried and `backend_in_use` set to the winner (the
empty descriptor is renamed "default"); if every backend fails it raises
the last backend's error, attempting all of them; with an empty backend
list it still raises a non-empty error; and the outcome never depends on
the best-effort buffer clear. -/
theorem c2_visa_connect_backend_order (env : Env) (st : VisaMeter) (resource : List Char)
    (hnc : st.is_connected_to resource = false) :
    (∀ pre be post, st.backend_order = pre ++ be :: post →
      (∀ b ∈ pre, ∃ e, env.openR b resource = .error e) →
      env.openR be resource = .ok () →
      VisaMeter.connect env st resource =
        (.ok (), { backend_order := st.backend_order, inst := true,
                   resource := some resource,
                   backend_in_use := some (if be.isEmpty then "default".data else be) },
         pre ++ [be])) ∧
    (∀ beL eL, st.backend_order.getLast? = some beL →
      env.openR beL resource = .error eL →
      (∀ be ∈ st.backend_order, ∃ e, env.openR be resource = .error e) →
      VisaMeter.connect env st resource = (.error eL, st.close, st.backend_order)) ∧
    (st.backend_order = [] →
      VisaMeter.connect env st resource = (.error visaDefaultErr, st.close, []) ∧
      visaDefaultErr ≠ []) ∧
    (∀ env', env.openR = env'.openR →
      VisaMeter.connect env st resource = VisaMeter.connect env' st resource) := by
  have hif : ∀ {α : Type} (a b : α), (if st.is_connected_to resource = true then a else b) = b :=
    fun a b => if_neg (by simp [hnc])
  refine ⟨?_, ?_, ?_, ?_⟩
  · intro pre be post horder hpre hok
    simp only [VisaMeter.connect, hif]
    have : st.close.backend_order = pre ++ be :: post := horder
    rw [show (VisaMeter.close st).backend_order = st.backend_order from rfl, horder]
    rw [tryBackends_first_success env resource pre be post none hpre hok]
  · intro beL eL hL hLerr hall
    simp only [VisaMeter.connect, hif]
    rw [show (VisaMeter.close st).backend_order = st.backend_order from rfl]
    rw [tryBackends_all_fail env resource st.backend_order none beL eL hL hLerr hall]
  · intro hempty
    constructor
    · simp only [VisaMeter.connect, hif]
      rw [show (VisaMeter.close st).backend_order = st.backend_order from rfl, hempty]
      rfl
    · decide
  · intro env' hopen
    simp only [VisaMeter.connect, hif]
    rw [tryBackends_clear_irrelevant env env' resource hopen]

/-- Witness for C2: with the default backend order `["@py", ""]`, an
environment whose `@py` backend fails and whose system backend opens
takes the second backend and stops; an all-failing environment raises
the last error after trying both; an empty order raises the fixed
non-empty error; and disabling the buffer clear changes nothing. -/
theorem c2_witness :
    VisaMeter.connect envSecond (VisaMeter.new DEFAULT_BACKENDS) "USB0::X::INSTR".data =
      (.ok (), { backend_order := DEFAULT_BACKENDS, inst := true,
                 resource := some "USB0::X::INSTR".data,
                 backend_in_use := some "default".data }, ["@py".data, []]) ∧
    VisaMeter.connect envFail (VisaMeter.new DEFAULT_BACKENDS) "USB0::X::INSTR".data =
      (.error "open failed".data, (VisaMeter.new DEFAULT_BACKENDS).close,
       DEFAULT_BACKENDS) ∧
    VisaMeter.connect envFail (VisaMeter.new []) "USB0::X::INSTR".data =
      (.error visaDefaultErr, (VisaMeter.new []).close, []) ∧
    VisaMeter.connect envOk (VisaMeter.new DEFAULT_BACKENDS) "USB0::X::INSTR".data =
      VisaMeter.connect envOkNoClear (VisaMeter.new DEFAULT_BACKENDS) "USB0::X::INSTR".data := by
  have h1 := c2_visa_connect_backend_order envSecond (VisaMeter.new DEFAULT_BACKENDS)
    "USB0::X::INSTR".data rfl
  have h2 := c2_visa_connect_backend_order envFail (VisaMeter.new DEFAULT_BACKENDS)
    "USB0::X::INSTR".data rfl
  have h3 := c2_visa_connect_backend_order envFail (VisaMeter.new [])
    "USB0::X::INSTR".data rfl
  have h4 := c2_visa_connect_backend_order envOk (VisaMeter.new DEFAULT_BACKENDS)
    "USB0::X::INSTR".data rfl
  refine ⟨?_, ?_, (h3.2.2.1 rfl).1, h4.2.2.2 envOkNoClear rfl⟩
  · have := h1.1 ["@py".data] [] [] rfl
      (by rintro b hb; exact ⟨"no @py".data, by rcases List.mem_singleton.mp hb with rfl; rfl⟩)
      rfl
    simpa using this
  · have := h2.2.1 [] "open failed".data (by decide) rfl
      (fun be _ => ⟨"open failed".data, rfl⟩)
    simpa using this

/-- The closed facade is fully disconnected. -/
lemma meter_close_disconnected (env : Env) (st : Meter) :
    (st.close).impl = none ∧ (st.close).backend_in_use = none ∧
    (st.close).resource = none ∧
    (∀ a, (st.close).is_connected_to a = false) ∧
    (∀ cmd, Meter.query env st.close cmd = .error notConnectedErr) ∧
    (∀ cmd, (Meter.write env st.close cmd).1 = .error notConnectedErr) := by
  refine ⟨rfl, rfl, rfl, fun a => ?_, fun cmd => ?_, fun cmd => ?_⟩
  · simp [Meter.is_connected_to, Meter.close]
  · simp [Meter.query, Meter.close]
  · simp [Meter.write, Meter.close]

/-- C10: a failing `Meter.connect` always leaves the facade in the
disconnected state — the previously active driver was closed before the
attempt and is not restored: afterwards `impl`, `backend_in_use` and
`resource` are all `None`, `is_connected_to` is false for every address,
and `query`/`write` raise NotConnected. -/
theorem c10_failed_connect_disconnected (env : Env) (st : Meter) (resource : List Char)
    (e : List Char) (st2 : Meter) (tr : List OpenEv)
    (h : Meter.connect env st resource = (.error e, st2, tr)) :
    st2.impl = none ∧ st2.backend_in_use = none ∧ st2.resource = none ∧
    (∀ a, st2.is_connected_to a = false) ∧
    (∀ cmd, Meter.query env st2 cmd = .error notConnectedErr) ∧
    (∀ cmd, (Meter.write env st2 cmd).1 = .error notConnectedErr) := by
  simp only [Meter.connect] at h
  by_cases hcon : st.is_connected_to resource = true
  · rw [if_pos hcon] at h
    exact absurd h (by simp)
  · rw [if_neg hcon] at h
    by_cases hfake : pyUpper (pyStrip resource) = "FAKE".data
    · rw [if_pos hfake] at h
      rw [show FakeMeter.connect "FAKE".data = Except.ok () from rfl] at h
      exact absurd h (by simp)
    · rw [if_neg hfake] at h
      by_cases hv : env.hasVisa = true
      · rw [if_pos hv] at h
        rcases hout : VisaMeter.connect env (VisaMeter.new (Meter.close st).backend_order)
            resource with ⟨r, v1, tr1⟩
        rw [hout] at h
        cases r with
        | ok u =>
            exact absurd h (by simp)
        | error e1 =>
            simp only [Prod.mk.injEq] at h
            obtain ⟨-, hst2, -⟩ := h
            rw [← hst2]
            exact meter_close_disconnected env st
      · rw [if_neg hv] at h
        simp only [Prod.mk.injEq] at h
        obtain ⟨-, hst2, -⟩ := h
        rw [← hst2]
        exact meter_close_disconnected env st

/-- Witness for C10: a connect with every backend failing leaves a
previously fake-connected facade fully disconnected. -/
theorem c10_witness :
    (Meter.connect envFail
        (Meter.connect envFail (Meter.new DEFAULT_BACKENDS) "FAKE".data).2.1
        "USB0::X::INSTR".data).2.1.impl = none ∧
    (∀ cmd, Meter.query envFail
        (Meter.connect envFail
          (Meter.connect envFail (Meter.new DEFAULT_BACKENDS) "FAKE".data).2.1
          "USB0::X::INSTR".data).2.1 cmd = .error notConnectedErr) := by
  have h := c10_failed_connect_disconnected envFail
    (Meter.connect envFail (Meter.new DEFAULT_BACKENDS) "FAKE".data).2.1
    "USB0::X::INSTR".data "open failed".data
    (Meter.connect envFail
      (Meter.connect envFail (Meter.new DEFAULT_BACKENDS) "FAKE".data).2.1
      "USB0::X::INSTR".data).2.1
    (Meter.connect envFail
      (Meter.connect envFail (Meter.new DEFAULT_BACKENDS) "FAKE".data).2.1
      "USB0::X::INSTR".data).2.2
    rfl
  exact ⟨h.1, h.2.2.2.2.1⟩

/-- C1 counterexample: the claim quantifies over every address string,
but for the spelling `"fake"` the facade stores the normalized literal
`"FAKE"` while `is_connected_to` compares the raw string, so a second
`connect("fake")` is not a no-op: it performs the fake-driver open a
second time, and a frequency stored on the simulator in between is reset
to the fresh default. -/
theorem c1_counterexample :
    (Meter.connect envOk (Meter.new DEFAULT_BACKENDS) "fake".data).1 = .ok () ∧
    (Meter.connect envOk (Meter.new DEFAULT_BACKENDS) "fake".data).2.2
      = [OpenEv.fakeOpen] ∧
    (Meter.connect envOk
      (Meter.connect envOk (Meter.new DEFAULT_BACKENDS) "fake".data).2.1
      "fake".data).2.2 = [OpenEv.fakeOpen] ∧
    (Meter.connect envOk
      (Meter.write envOk
        (Meter.connect envOk (Meter.new DEFAULT_BACKENDS) "fake".data).2.1
        "SENS:FREQ 5".data).2
      "fake".data).2.1.impl = some (.fake FakeMeter.new) :=
  ⟨rfl, rfl, rfl, rfl⟩

/-- C1 amended: facade connect is idempotent for every address the
facade stores verbatim — every address that does not normalize to the
reserved literal, and the exact literal `"FAKE"` itself.  After a
successful `connect(addr)` for such an address, a second
`connect(addr)` performs no driver open and returns the state
unchanged.  (For other spellings of the reserved literal, the
counterexample above shows the second call re-opens the simulator.) -/
theorem c1_connect_idempotent_amended (env : Env) (st st1 : Meter)
    (resource : List Char) (tr : List OpenEv)
    (hok : Meter.connect env st resource = (.ok (), st1, tr))
    (hres : pyUpper (pyStrip resource) ≠ "FAKE".data ∨ resource = "FAKE".data) :
    Meter.connect env st1 resource = (.ok (), st1, []) := by
  have hconn : st1.is_connected_to resource = true := by
    simp only [Meter.connect] at hok
    by_cases hcon : st.is_connected_to resource = true
    · rw [if_pos hcon] at hok
      simp only [Prod.mk.injEq] at hok
      obtain ⟨-, h1, -⟩ := hok
      rw [← h1]
      exact hcon
    · rw [if_neg hcon] at hok
      by_cases hfake : pyUpper (pyStrip resource) = "FAKE".data
      · rcases hres with hres | hres
        · exact absurd hfake hres
        · subst hres
          rw [if_pos hfake] at hok
          rw [show FakeMeter.connect "FAKE".data = Except.ok () from rfl] at hok
          dsimp only at hok
          simp only [Prod.mk.injEq] at hok
          obtain ⟨-, h1, -⟩ := hok
          rw [← h1]
          simp [Meter.is_connected_to]
      · rw [if_neg hfake] at hok
        by_cases hv : env.hasVisa = true
        · rw [if_pos hv] at hok
          rcases hout : VisaMeter.connect env (VisaMeter.new (Meter.close st).backend_order)
              resource with ⟨r, v1, tr1⟩
          rw [hout] at hok
          cases r with
          | ok u =>
              dsimp only at hok
              simp only [Prod.mk.injEq] at hok
              obtain ⟨-, h1, -⟩ := hok
              rw [← h1]
              simp [Meter.is_connected_to]
          | error e1 =>
              exact absurd hok (by simp)
        · rw [if_neg hv] at hok
          exact absurd hok (by simp)
  simp only [Meter.connect]
  rw [if_pos hconn]

/-- Witness for the amended C1: a real address and the exact literal
`"FAKE"`, each reconnected once with no further open. -/
theorem c1_witness :
    Meter.connect envOk
      (Meter.connect envOk (Meter.new DEFAULT_BACKENDS) "USB0::X::INSTR".data).2.1
      "USB0::X::INSTR".data
      = (.ok (), (Meter.connect envOk (Meter.new DEFAULT_BACKENDS)
          "USB0::X::INSTR".data).2.1, []) ∧
    Meter.connect envOk
      (Meter.connect envOk (Meter.new DEFAULT_BACKENDS) "FAKE".data).2.1 "FAKE".data
      = (.ok (), (Meter.connect envOk (Meter.new DEFAULT_BACKENDS) "FAKE".data).2.1, []) := by
  constructor
  · exact c1_connect_idempotent_amended envOk (Meter.new DEFAULT_BACKENDS)
      (Meter.connect envOk (Meter.new DEFAULT_BACKENDS) "USB0::X::INSTR".data).2.1
      "USB0::X::INSTR".data
      (Meter.connect envOk (Meter.new DEFAULT_BACKENDS) "USB0::X::INSTR".data).2.2
      rfl (Or.inl (by decide))
  · exact c1_connect_idempotent_amended envOk (Meter.new DEFAULT_BACKENDS)
      (Meter.connect envOk (Meter.new DEFAULT_BACKENDS) "FAKE".data).2.1 "FAKE".data
      (Meter.connect envOk (Meter.new DEFAULT_BACKENDS) "FAKE".data).2.2
      rfl (Or.inr rfl)

/-- C4 support: folding the peak update from a set peak computes the
running maximum. -/
lemma peakFold_some : ∀ (l : List ℚ) (a : ℚ), peakFold (some a) l = some (l.foldl max a) := by
  intro l
  induction l with
  | nil => intro a; rfl
  | cons v rest ih =>
      intro a
      simp only [peakFold, List.foldl_cons] at *
      have hstep : peakStep (some a) v = some (max a v) := by
        simp only [peakStep]
        by_cases h : v > a
        · rw [if_pos h, max_eq_right (le_of_lt h)]
        · rw [if_neg h, max_eq_left (not_lt.mp h)]
      rw [hstep]
      exact ih (max a v)

lemma optLe_trans {p q r : Option ℚ} (h1 : optLe p q) (h2 : optLe q r) : optLe p r := by
  intro x hx
  obtain ⟨y, hy, hxy⟩ := h1 x hx
  obtain ⟨z, hz, hyz⟩ := h2 y hy
  exact ⟨z, hz, le_trans hxy hyz⟩

lemma optLe_peakStep (p : Option ℚ) (v : ℚ) : optLe p (peakStep p v) := by
  intro x hx
  subst hx
  simp only [peakStep]
  by_cases h : v > x
  · exact ⟨v, by rw [if_pos h], le_of_lt h⟩
  · exact ⟨x, by rw [if_neg h], le_refl x⟩

lemma optLe_peakFold : ∀ (l : List ℚ) (p : Option ℚ), optLe p (peakFold p l) := by
  intro l
  induction l with
  | nil => intro p x hx; exact ⟨x, hx, le_refl x⟩
  | cons v rest ih =>
      intro p
      exact optLe_trans (optLe_peakStep p v) (ih (peakStep p v))

/-- C4: the peak is the running maximum of the successfully parsed
readings since the last reset: from an unset peak, a nonempty reading
list yields exactly its maximum (so, concretely, readings
-45.0, -42.0, -48.0 yield -42.0); the peak never decreases under
further readings; a successful zero command and a successful fresh
connect reset it to unset; and after a reset the next parsed reading
becomes the new peak. -/
theorem c4_peak_tracker :
    (∀ l : List ℚ, l ≠ [] → peakFold none l = listMax l) ∧
    (∀ (p : Option ℚ) (v : ℚ), optLe p (peakStep p v)) ∧
    (∀ (p : Option ℚ) (l : List ℚ), optLe p (peakFold p l)) ∧
    (∀ (raw : List Char) (v : ℚ), parse_float raw = some v →
      pollBodyPeak none raw = some v) ∧
    (∀ (env : Env) (st : Meter) (peak : Option ℚ) (u : Unit) (st2 : Meter),
      Meter.write env st "SENS:POW:ZERO:IMM".data = (.ok u, st2) →
      onZero env st peak = (st2, none)) ∧
    (∀ (env : Env) (st : Meter) (peak : Option ℚ) (res : List Char)
       (st2 : Meter) (tr : List OpenEv),
      st.is_connected_to res = false →
      Meter.connect env st res = (.ok (), st2, tr) →
      onConnect env st peak res = (st2, none, .ok ())) ∧
    pollBodyPeak (pollBodyPeak (pollBodyPeak none "-45.0".data) "-42.0".data)
      "-48.0".data = some (-42 : ℚ) := by
  refine ⟨?_, optLe_peakStep, fun p l => optLe_peakFold l p, ?_, ?_, ?_, by decide⟩
  · intro l hl
    cases l with
    | nil => exact absurd rfl hl
    | cons x xs =>
        simp only [peakFold, List.foldl_cons, listMax]
        have : peakStep none x = some x := rfl
        rw [this]
        exact peakFold_some xs x
  · intro raw v h
    simp [pollBodyPeak, h, peakStep]
  · intro env st peak u st2 h
    simp [onZero, h]
  · intro env st peak res st2 tr hnc h
    simp only [onConnect]
    rw [if_neg (by simp [hnc]), h]

/-- Witness for C4: the spec's own example sequence, a zero on a
fake-connected facade, and a fresh fake connect. -/
theorem c4_witness :
    peakFold none [(-45 : ℚ), -42, -48] = listMax [(-45 : ℚ), -42, -48] ∧
    pollBodyPeak none "-47.25".data = some (mkRat (-4725) 100) ∧
    onZero envOk (Meter.connect envOk (Meter.new DEFAULT_BACKENDS) "FAKE".data).2.1 (some (-42))
      = ((Meter.write envOk (Meter.connect envOk (Meter.new DEFAULT_BACKENDS) "FAKE".data).2.1
           "SENS:POW:ZERO:IMM".data).2, none) ∧
    onConnect envOk (Meter.new DEFAULT_BACKENDS) (some (-42)) "FAKE".data
      = ((Meter.connect envOk (Meter.new DEFAULT_BACKENDS) "FAKE".data).2.1, none, .ok ()) := by
  have h := c4_peak_tracker
  refine ⟨h.1 _ (by decide), h.2.2.2.1 "-47.25".data (mkRat (-4725) 100) (by decide), ?_, ?_⟩
  · exact h.2.2.2.2.1 envOk (Meter.connect envOk (Meter.new DEFAULT_BACKENDS) "FAKE".data).2.1
      (some (-42)) ()
      (Meter.write envOk (Meter.connect envOk (Meter.new DEFAULT_BACKENDS) "FAKE".data).2.1
        "SENS:POW:ZERO:IMM".data).2 rfl
  · exact h.2.2.2.2.2.1 envOk (Meter.new DEFAULT_BACKENDS) (some (-42)) "FAKE".data
      (Meter.connect envOk (Meter.new DEFAULT_BACKENDS) "FAKE".data).2.1
      (Meter.connect envOk (Meter.new DEFAULT_BACKENDS) "FAKE".data).2.2 rfl rfl

/-- C3 support: worker steps leave `flag` and `m` unchanged. -/
lemma poll_wStep_frame {c c' : Poll.Cfg} (h : Poll.step c .wStep = some c') :
    c'.flag = c.flag ∧ c'.m = c.m := by
  cases hw : c.w <;> simp only [Poll.step, hw] at h
  · cases h
    by_cases hf : c.flag = true
    · rw [if_pos hf]
      exact ⟨rfl, rfl⟩
    · rw [if_neg hf]
      exact ⟨rfl, rfl⟩
  · cases h
    exact ⟨rfl, rfl⟩
  · cases h
    exact ⟨rfl, rfl⟩
  · cases h
    exact ⟨rfl, rfl⟩
  · cases h

/-- C3 support: main-thread steps leave `w` and `q` unchanged, and no
step ever clears the stop flag. -/
lemma poll_mStep_frame {c c' : Poll.Cfg} {a : Poll.Act} (hne : a ≠ .wStep)
    (h : Poll.step c a = some c') :
    c'.w = c.w ∧ c'.q = c.q ∧ (c.flag = true → c'.flag = true) := by
  cases a with
  | wStep => exact absurd rfl hne
  | mSet =>
      simp only [Poll.step] at h
      by_cases hc : c.m = .set
      · rw [if_pos hc] at h
        cases h
        exact ⟨rfl, rfl, fun _ => rfl⟩
      · rw [if_neg hc] at h
        cases h
  | mJoinOk =>
      simp only [Poll.step] at h
      by_cases hc : c.m = .join ∧ c.w = .done
      · rw [if_pos hc] at h
        cases h
        exact ⟨rfl, rfl, fun hf => hf⟩
      · rw [if_neg hc] at h
        cases h
  | mJoinTimeout =>
      simp only [Poll.step] at h
      by_cases hc : c.m = .join ∧ c.w ≠ .done
      · rw [if_pos hc] at h
        cases h
        exact ⟨rfl, rfl, fun hf => hf⟩
      · rw [if_neg hc] at h
        cases h

/-- C3 support: no step clears the stop flag. -/
lemma poll_step_flag {c c' : Poll.Cfg} {a : Poll.Act} (h : Poll.step c a = some c')
    (hf : c.flag = true) : c'.flag = true := by
  by_cases ha : a = .wStep
  · subst ha
    rw [(poll_wStep_frame h).1]
    exact hf
  · exact (poll_mStep_frame ha h).2.2 hf

/-- C3 support: one step preserves "past `stop_flag.set()` implies the
flag is set". -/
lemma poll_step_inv {c c' : Poll.Cfg} {a : Poll.Act} (h : Poll.step c a = some c')
    (hi : c.m ≠ .set → c.flag = true) : c'.m ≠ .set → c'.flag = true := by
  intro hm
  cases a with
  | wStep =>
      obtain ⟨hflag, hmeq⟩ := poll_wStep_frame h
      rw [hflag]
      exact hi (by rw [← hmeq]; exact hm)
  | mSet =>
      simp only [Poll.step] at h
      by_cases hc : c.m = .set
      · rw [if_pos hc] at h
        cases h
        rfl
      · rw [if_neg hc] at h
        cases h
  | mJoinOk =>
      simp only [Poll.step] at h
      by_cases hc : c.m = .join ∧ c.w = .done
      · rw [if_pos hc] at h
        cases h
        exact hi (by rw [hc.1]; intro e; cases e)
      · rw [if_neg hc] at h
        cases h
  | mJoinTimeout =>
      simp only [Poll.step] at h
      by_cases hc : c.m = .join ∧ c.w ≠ .done
      · rw [if_pos hc] at h
        cases h
        exact hi (by rw [hc.1]; intro e; cases e)
      · rw [if_neg hc] at h
        cases h

lemma poll_runP_inv : ∀ (acts : List Poll.Act) (c0 c : Poll.Cfg),
    Poll.runP c0 acts = some c → (c0.m ≠ .set → c0.flag = true) →
    (c.m ≠ .set → c.flag = true) := by
  intro acts
  induction acts with
  | nil =>
      intro c0 c h hi
      simp only [Poll.runP] at h
      cases h
      exact hi
  | cons a rest ih =>
      intro c0 c h hi
      simp only [Poll.runP] at h
      cases hs : Poll.step c0 a with
      | none => rw [hs] at h; cases h
      | some c1 =>
          rw [hs] at h
          exact ih c1 c h (poll_step_inv hs hi)

/-- C3 support: with the stop flag set, the worker performs at most
`wght c.w` further puts (one if an iteration is already past its flag
check, none otherwise). -/
lemma poll_putsFrom_le : ∀ (acts : List Poll.Act) (c : Poll.Cfg),
    c.flag = true → Poll.putsFrom c acts ≤ Poll.wght c.w := by
  intro acts
  induction acts with
  | nil => intro c _; simp [Poll.putsFrom]
  | cons a rest ih =>
      intro c hf
      simp only [Poll.putsFrom]
      cases hs : Poll.step c a with
      | none => simp
      | some c2 =>
          have hrest := ih c2 (poll_step_flag hs hf)
          by_cases ha : a = .wStep
          · subst ha
            cases hw : c.w with
            | check =>
                simp only [Poll.step, hw] at hs
                rw [if_pos hf] at hs
                cases hs
                dsimp only [Poll.wght, Poll.putInc] at hrest ⊢
                omega
            | query =>
                simp only [Poll.step, hw] at hs
                cases hs
                dsimp only [Poll.wght, Poll.putInc] at hrest ⊢
                omega
            | put =>
                simp only [Poll.step, hw] at hs
                cases hs
                dsimp only [Poll.wght, Poll.putInc] at hrest ⊢
                omega
            | sleep =>
                simp only [Poll.step, hw] at hs
                cases hs
                dsimp only [Poll.wght, Poll.putInc] at hrest ⊢
                omega
            | done =>
                simp only [Poll.step, hw] at hs
                exact Option.noConfusion hs
          · obtain ⟨hweq, -, -⟩ := poll_mStep_frame ha hs
            rw [hweq] at hrest
            have hinc : Poll.putInc a c.w = 0 := by
              cases a with
              | wStep => exact absurd rfl ha
              | mSet => cases c.w <;> rfl
              | mJoinOk => cases c.w <;> rfl
              | mJoinTimeout => cases c.w <;> rfl
            rw [hinc]
            dsimp only
            omega

/-- C3 support: a terminated worker never puts again. -/
lemma poll_putsFrom_done : ∀ (acts : List Poll.Act) (c : Poll.Cfg),
    c.w = .done → Poll.putsFrom c acts = 0 := by
  intro acts
  induction acts with
  | nil => intro c _; rfl
  | cons a rest ih =>
      intro c hw
      simp only [Poll.putsFrom]
      cases hs : Poll.step c a with
      | none => rfl
      | some c2 =>
          by_cases ha : a = .wStep
          · subst ha
            simp only [Poll.step, hw] at hs
            exact Option.noConfusion hs
          · obtain ⟨hweq, -, -⟩ := poll_mStep_frame ha hs
            have hz := ih c2 (by rw [hweq, hw])
            have hinc : Poll.putInc a c.w = 0 := by
              rw [hw]
              cases a with
              | wStep => exact absurd rfl ha
              | mSet => rfl
              | mJoinOk => rfl
              | mJoinTimeout => rfl
            dsimp only
            rw [hinc, hz]

/-- C3 counterexample: a valid interleaving in which `_stop_polling`
returns (via the 1-second join timeout, while the worker is inside its
query) and the worker afterwards still puts one outcome on the queue:
after the schedule `[wStep, mSet, mJoinTimeout]` stop has returned with
the queue empty, and the two further worker steps are valid and enqueue
one outcome.  So "every queue put happens before the return of
`_stop_polling`" is false. -/
theorem c3_counterexample :
    Poll.runP Poll.init [.wStep, .mSet, .mJoinTimeout] =
      some { flag := true, q := 0, w := .query, m := .ret } ∧
    Poll.runP Poll.init [.wStep, .mSet, .mJoinTimeout, .wStep, .wStep] =
      some { flag := true, q := 1, w := .sleep, m := .ret } ∧
    Poll.putsFrom { flag := true, q := 0, w := Poll.WPc.query, m := Poll.MPc.ret }
      [.wStep, .wStep] = 1 := by
  decide

/-- C3 amended: after `_stop_polling` returns, at most one further
SampleOutcome is ever enqueued (the one from an iteration already past
its flag check when the flag was set); and if the join actually observed
the worker exit (the loop is at `done`), no further outcome is enqueued
at all. -/
theorem c3_stop_polling_amended (acts acts2 : List Poll.Act) (c : Poll.Cfg)
    (hreach : Poll.runP Poll.init acts = some c) (hret : c.m = .ret) :
    Poll.putsFrom c acts2 ≤ 1 ∧ (c.w = .done → Poll.putsFrom c acts2 = 0) := by
  have hflag : c.flag = true := by
    apply poll_runP_inv acts Poll.init c hreach
    · intro hset
      exact absurd rfl hset
    · rw [hret]
      intro e
      cases e
  constructor
  · have hle := poll_putsFrom_le acts2 c hflag
    have hw : Poll.wght c.w ≤ 1 := by
      cases c.w <;> simp [Poll.wght]
    omega
  · intro hdone
    exact poll_putsFrom_done acts2 c hdone

/-- Witness for the amended C3: a timed-out stop (worker mid-query) put
at most one more outcome; a stop whose join saw the worker exit puts
none. -/
theorem c3_witness :
    Poll.putsFrom { flag := true, q := 0, w := Poll.WPc.query, m := Poll.MPc.ret }
      [.wStep, .wStep, .wStep, .wStep, .wStep] ≤ 1 ∧
    Poll.putsFrom { flag := true, q := 0, w := Poll.WPc.done, m := Poll.MPc.ret }
      [.mSet, .wStep] = 0 := by
  have h1 := c3_stop_polling_amended [.wStep, .mSet, .mJoinTimeout]
    [.wStep, .wStep, .wStep, .wStep, .wStep]
    { flag := true, q := 0, w := Poll.WPc.query, m := Poll.MPc.ret } (by decide) rfl
  have h2 := c3_stop_polling_amended [.mSet, .wStep, .mJoinOk] [.mSet, .wStep]
    { flag := true, q := 0, w := Poll.WPc.done, m := Poll.MPc.ret } (by decide) rfl
  exact ⟨h1.1, h2.2 rfl⟩

/-! ## C8 support: the matcher on well-formed numeric strings -/

lemma takeWhile_append_exact {p : Char → Bool} :
    ∀ (d r : List Char), (∀ c ∈ d, p c = true) →
    (∀ c, r.head? = some c → p c = false) →
    (d ++ r).takeWhile p = d ∧ (d ++ r).dropWhile p = r := by
  intro d
  induction d with
  | nil =>
      intro r _ hr
      cases r with
      | nil => exact ⟨rfl, rfl⟩
      | cons c rest =>
          have := hr c rfl
          simp [List.takeWhile_cons, List.dropWhile_cons, this]
  | cons x d' ih =>
      intro r hd hr
      have hx := hd x (by simp)
      obtain ⟨h1, h2⟩ := ih r (fun c hc => hd c (by simp [hc])) hr
      simp [List.takeWhile_cons, List.dropWhile_cons, hx, h1, h2]

lemma spanDigits_exact {d r : List Char} (hd : ∀ c ∈ d, pyIsDigit c = true)
    (hr : ∀ c, r.head? = some c → pyIsDigit c = false) :
    spanDigits (d ++ r) = (d, r) := by
  obtain ⟨h1, h2⟩ := takeWhile_append_exact d r hd hr
  simp [spanDigits, h1, h2]

/-- A whitespace or letter character is not a digit, nor a sign. -/
lemma space_or_alpha_facts {c : Char}
    (h : pyIsSpace c = true ∨ pyIsAlpha c = true) :
    pyIsDigit c = false ∧ c ≠ '+' ∧ c ≠ '-' ∧ c ≠ '.' := by
  rcases h with h | h
  · simp only [pyIsSpace, Bool.or_eq_true, decide_eq_true_eq] at h
    rcases h with ((((rfl | rfl) | rfl) | rfl) | rfl) | rfl <;>
      exact ⟨by decide, by decide, by decide, by decide⟩
  · simp only [pyIsAlpha, Bool.or_eq_true, Bool.and_eq_true, decide_eq_true_eq] at h
    have hlow : 'A' ≤ c := by
      rcases h with ⟨h1, -⟩ | ⟨h1, -⟩
      · exact le_trans (by decide) h1
      · exact h1
    refine ⟨?_, ?_, ?_, ?_⟩
    · simp only [pyIsDigit, Bool.and_eq_false_iff, decide_eq_false_iff_not, not_le]
      right
      exact lt_of_lt_of_le (by decide) hlow
    · rintro rfl
      revert hlow
      decide
    · rintro rfl
      revert hlow
      decide
    · rintro rfl
      revert hlow
      decide

/-- The head of a whitespace-then-letters rest is never a digit. -/
lemma rest_head_not_digit {ws suffix : List Char}
    (hws : ∀ c ∈ ws, pyIsSpace c = true) (hsf : ∀ c ∈ suffix, pyIsAlpha c = true) :
    ∀ c, (ws ++ suffix).head? = some c → pyIsDigit c = false := by
  intro c hc
  have hmem : c ∈ ws ++ suffix := List.mem_of_mem_head? hc
  rcases List.mem_append.mp hmem with h | h
  · exact (space_or_alpha_facts (Or.inl (hws c h))).1
  · exact (space_or_alpha_facts (Or.inr (hsf c h))).1

/-- Mantissa with no fraction part: the digit run is taken whole and the
rest (not starting with a digit, nor with a dot followed by a digit) is
untouched. -/
lemma matchMantissa_nofrac {d1 rest : List Char} (h1 : d1 ≠ [])
    (hd : ∀ c ∈ d1, pyIsDigit c = true)
    (hr : ∀ c, rest.head? = some c → pyIsDigit c = false)
    (hdot : ∀ c, rest.head? = some c → c ≠ '.') :
    matchMantissa (d1 ++ rest) = some (d1, [], rest) := by
  have hspan := spanDigits_exact hd hr
  simp only [matchMantissa, hspan]
  cases rest with
  | nil => simp [h1]
  | cons c r2 =>
      have hc := hdot c rfl
      simp only [if_neg hc]
      simp [h1]

/-- Mantissa with a fraction part. -/
lemma matchMantissa_frac {d1 d2 rest : List Char} (h2 : d2 ≠ [])
    (hd1 : ∀ c ∈ d1, pyIsDigit c = true) (hd2 : ∀ c ∈ d2, pyIsDigit c = true)
    (hr : ∀ c, rest.head? = some c → pyIsDigit c = false) :
    matchMantissa (d1 ++ '.' :: (d2 ++ rest)) = some (d1, d2, rest) := by
  have hspan1 : spanDigits (d1 ++ '.' :: (d2 ++ rest)) = (d1, '.' :: (d2 ++ rest)) :=
    spanDigits_exact hd1 (by rintro c rfl1; simp only [List.head?_cons,
      Option.some.injEq] at rfl1; subst rfl1; decide)
  have hspan2 : spanDigits (d2 ++ rest) = (d2, rest) := spanDigits_exact hd2 hr
  simp only [matchMantissa, hspan1]
  rw [if_pos trivial]
  simp only [hspan2]
  rw [if_neg (by simpa using h2)]

/-- An exponent-free rest (whitespace then letters) is left whole: even
when it starts with `e`/`E`, the exponent group finds no digits and
consumes nothing. -/
lemma matchExp_no_digits {cs : List Char}
    (h : ∀ x ∈ cs, pyIsSpace x = true ∨ pyIsAlpha x = true) :
    matchExp cs = (0, cs) := by
  cases cs with
  | nil => rfl
  | cons c r =>
      simp only [matchExp]
      by_cases he : (c = 'e' || c = 'E') = true
      · rw [if_pos he]
        cases r with
        | nil => simp [spanDigits]
        | cons s t =>
            obtain ⟨hsd, hsp, hsm, -⟩ := space_or_alpha_facts (h s (by simp))
            simp only [if_neg hsp, if_neg hsm]
            simp [spanDigits, List.takeWhile_cons, hsd]
      · rw [if_neg he]

/-- The exponent group with sign and digits present consumes exactly
`echar`, the sign and the digits. -/
lemma matchExp_some {esgnc ed rest : List Char} {echar : Char} {esgn : Int}
    (he : echar = 'e' ∨ echar = 'E')
    (hsgn : (esgnc = [] ∧ esgn = 1) ∨ (esgnc = ['+'] ∧ esgn = 1) ∨
            (esgnc = ['-'] ∧ esgn = -1))
    (hed : ed ≠ []) (hd : ∀ c ∈ ed, pyIsDigit c = true)
    (hr : ∀ c, rest.head? = some c → pyIsDigit c = false) :
    matchExp (echar :: (esgnc ++ (ed ++ rest))) = (esgn * digitsVal ed, rest) := by
  have hspan : spanDigits (ed ++ rest) = (ed, rest) := spanDigits_exact hd hr
  simp only [matchExp]
  rw [if_pos (by rcases he with rfl | rfl <;> simp)]
  rcases hsgn with ⟨rfl, rfl⟩ | ⟨rfl, rfl⟩ | ⟨rfl, rfl⟩
  · cases ed with
    | nil => exact absurd rfl hed
    | cons d dt =>
        have hd0 := hd d (by simp)
        simp only [List.nil_append, List.cons_append]
        rw [if_neg (digit_ne_plus hd0), if_neg (digit_ne_minus hd0)]
        have hspan' : spanDigits (d :: (dt ++ rest)) = (d :: dt, rest) := by
          rw [show d :: (dt ++ rest) = (d :: dt) ++ rest from rfl]
          exact hspan
        simp [hspan', hed]
  · simp [hspan, hed]
  · simp [hspan, hed]

lemma numBodyAt_eq {r d1 d2 rest0 rest : List Char} {e : Int} (sgn : Int)
    (hm : matchMantissa r = some (d1, d2, rest0)) (hx : matchExp rest0 = (e, rest)) :
    numBodyAt sgn r = some ({ sgn := sgn, d1 := d1, d2 := d2, e := e }, rest) := by
  simp [numBodyAt, hm, hx]

lemma reSearchNum_of_matchNumber {cs : List Char} {v : NumParts × List Char}
    (h : matchNumber cs = some v) : reSearchNum cs = some v := by
  cases cs with
  | nil => exact absurd h (by simp [matchNumber, numBodyAt, matchMantissa, spanDigits])
  | cons c r => simp [reSearchNum, h]

lemma alpha_not_space {c : Char} (h : pyIsAlpha c = true) : pyIsSpace c = false := by
  simp only [pyIsAlpha, Bool.or_eq_true, Bool.and_eq_true, decide_eq_true_eq] at h
  have hlow : 'A' ≤ c := by
    rcases h with ⟨h1, -⟩ | ⟨h1, -⟩
    · exact le_trans (by decide) h1
    · exact h1
  simp only [pyIsSpace, Bool.or_eq_false_iff, decide_eq_false_iff_not]
  refine ⟨⟨⟨⟨⟨?_, ?_⟩, ?_⟩, ?_⟩, ?_⟩, ?_⟩ <;>
    · rintro rfl
      revert hlow
      decide

lemma takeWhile_all {p : Char → Bool} {l : List Char} (h : ∀ c ∈ l, p c = true) :
    l.takeWhile p = l := by
  have := (takeWhile_append_exact l [] h (by rintro c hc; cases hc)).1
  simpa using this

/-- `sciQ` denotes exactly `s · D · 10^E`. -/
lemma sciQ_eq_zpow (s : Int) (D : Nat) (E : Int) :
    sciQ s D E = (s : ℚ) * (D : ℚ) * (10 : ℚ) ^ E := by
  unfold sciQ
  rw [Rat.mkRat_eq_div]
  by_cases hE : 0 ≤ E
  · have h1 : ((-E).toNat) = 0 := by omega
    rw [h1]
    push_cast
    rw [div_one]
    congr 1
    rw [← zpow_natCast (10 : ℚ) E.toNat, Int.toNat_of_nonneg hE]
  · have h1 : E.toNat = 0 := by omega
    have h2 : E = -((-E).toNat : ℤ) := by omega
    rw [h1, pow_zero, mul_one]
    push_cast
    conv_rhs => rw [h2]
    rw [zpow_neg, zpow_natCast, div_eq_mul_inv]

lemma unitMult_eq (u : List Char) : unitMult u = (10 : ℚ) ^ (unitExp u) := by
  unfold unitMult unitExp
  split_ifs <;> norm_num

/-- The exact value `parse_float` assembles equals the textbook form
`sign · mantissa · 10^exponent · unit-multiplier`. -/
lemma value_assembly (sgnQ : Int) (d1 d2 : List Char) (e : Int) (u : List Char) :
    sciQ sgnQ (digitsVal (d1 ++ d2)) (e + (unitExp u : Int) - d2.length)
      = (sgnQ : ℚ) * mantVal d1 d2 * (10 : ℚ) ^ e * unitMult u := by
  rw [sciQ_eq_zpow, digitsVal_append, unitMult_eq, mantVal]
  have h10 : (10 : ℚ) ≠ 0 := by norm_num
  rw [zpow_sub₀ h10, zpow_add₀ h10]
  rw [zpow_natCast, zpow_natCast]
  push_cast
  field_simp
  ring

lemma takeWhile_nil_of_all_false {p : Char → Bool} {cs : List Char}
    (h : ∀ c ∈ cs, p c = false) : cs.takeWhile p = [] := by
  cases cs with
  | nil => rfl
  | cons c r => simp [List.takeWhile_cons, h c (by simp)]

lemma matchMantissa_none_of_no_digit {cs : List Char}
    (h : ∀ c ∈ cs, pyIsDigit c = false) : matchMantissa cs = none := by
  have hspan1 : (spanDigits cs).1 = [] := takeWhile_nil_of_all_false h
  have hspan2 : (spanDigits cs).2 = cs := by
    simp only [spanDigits]
    cases cs with
    | nil => rfl
    | cons c r => simp [List.dropWhile_cons, h c (by simp)]
  simp only [matchMantissa, hspan1, hspan2]
  cases cs with
  | nil => simp
  | cons c r2 =>
      dsimp only
      by_cases hdot : c = '.'
      · rw [if_pos hdot]
        have : (spanDigits r2).1 = [] :=
          takeWhile_nil_of_all_false (fun x hx => h x (by simp [hx]))
        simp [this]
      · rw [if_neg hdot]
        simp

lemma matchNumber_none_of_no_digit {cs : List Char}
    (h : ∀ c ∈ cs, pyIsDigit c = false) : matchNumber cs = none := by
  have hnone : ∀ r : List Char, (∀ c ∈ r, pyIsDigit c = false) → numBodyAt 1 r = none ∧
      numBodyAt (-1) r = none := by
    intro r hr
    constructor <;> simp [numBodyAt, matchMantissa_none_of_no_digit hr]
  cases cs with
  | nil => exact (hnone [] (by rintro c hc; cases hc)).1
  | cons c r =>
      have hr : ∀ x ∈ r, pyIsDigit x = false := fun x hx => h x (by simp [hx])
      simp only [matchNumber]
      by_cases h1 : c = '+'
      · rw [if_pos h1]
        exact (hnone r hr).1
      · rw [if_neg h1]
        by_cases h2 : c = '-'
        · rw [if_pos h2]
          exact (hnone r hr).2
        · rw [if_neg h2]
          exact (hnone (c :: r) h).1

lemma reSearchNum_none_of_no_digit : ∀ cs : List Char,
    (∀ c ∈ cs, pyIsDigit c = false) → reSearchNum cs = none := by
  intro cs
  induction cs with
  | nil => intro; rfl
  | cons c r ih =>
      intro h
      simp only [reSearchNum, matchNumber_none_of_no_digit h]
      exact ih (fun x hx => h x (by simp [hx]))

lemma mem_pyStrip {cs : List Char} {c : Char} (h : c ∈ pyStrip cs) : c ∈ cs := by
  unfold pyStrip at h
  rw [List.mem_reverse] at h
  have h2 := (List.dropWhile_sublist (l := (cs.dropWhile pyIsSpace).reverse)
    (p := pyIsSpace)).mem h
  rw [List.mem_reverse] at h2
  exact (List.dropWhile_sublist (l := cs) (p := pyIsSpace)).mem h2

lemma parse_float_none_of_no_digit {s : List Char}
    (h : ∀ c ∈ s, pyIsDigit c = false) : parse_float s = none := by
  simp only [parse_float]
  by_cases hs : s.isEmpty = true
  · rw [if_pos hs]
  · rw [if_neg hs]
    rw [reSearchNum_none_of_no_digit (pyStrip s) (fun c hc => h c (mem_pyStrip hc))]

/-- Conformance spot-checks of the embedded matcher against the regex
`([-+]?\d*\.?\d+(?:[eE][-+]?\d+)?)\s*([a-zA-Z]+)?`: leftmost match,
backtracking on a trailing dot, greedy unit runs, and unit-run
truncation at the first non-letter. -/
lemma parse_float_regex_conformance :
    parse_float "abc-4.2mhz".data = some (mkRat (-4200000) 1) ∧
    parse_float "12.".data = some (mkRat 12 1) ∧
    parse_float "10 kHza".data = some (mkRat 10 1) ∧
    parse_float "7khz2".data = some (mkRat 7000 1) ∧
    parse_float "+-3".data = some (mkRat (-3) 1) ∧
    parse_float "1e".data = some (mkRat 1 1) ∧
    parse_float " 2.4 GHz ".data = some (mkRat 2400000000 1) := by
  decide

/-- C8: `parse_float` is total (`Option`-valued by construction, it
never raises); on every well-formed numeric string — optional sign,
digits with an optional fraction, an optional exponent — followed by
optional whitespace and an optional alphabetic suffix, it returns the
numeric value times the suffix's multiplier (1e3/1e6/1e9 for
`khz`/`mhz`/`ghz`, 1 for `hz`, and 1 for any unrecognized or absent
suffix, case-insensitively); an empty string or a string with no digit
at all yields no value. -/
theorem c8_parse_float_unit_suffix :
    (∀ (sgnc : List Char) (sgnQ : Int) (d1 d2 body expc ed : List Char) (e : Int)
       (ws suffix : List Char),
      ((sgnc = [] ∧ sgnQ = 1) ∨ (sgnc = ['+'] ∧ sgnQ = 1) ∨ (sgnc = ['-'] ∧ sgnQ = -1)) →
      (∀ c ∈ d1, pyIsDigit c = true) →
      (∀ c ∈ d2, pyIsDigit c = true) →
      ((body = d1 ∧ d2 = [] ∧ d1 ≠ []) ∨ (body = d1 ++ '.' :: d2 ∧ d2 ≠ [])) →
      ((expc = [] ∧ e = 0 ∧ ed = []) ∨
        (∃ (echar : Char) (esgnc : List Char) (esgn : Int),
          expc = echar :: (esgnc ++ ed) ∧ (echar = 'e' ∨ echar = 'E') ∧
          ((esgnc = [] ∧ esgn = 1) ∨ (esgnc = ['+'] ∧ esgn = 1) ∨
            (esgnc = ['-'] ∧ esgn = -1)) ∧
          ed ≠ [] ∧ (∀ c ∈ ed, pyIsDigit c = true) ∧ e = esgn * digitsVal ed)) →
      (∀ c ∈ ws, pyIsSpace c = true) →
      (∀ c ∈ suffix, pyIsAlpha c = true) →
      (suffix = [] → ws = []) →
      parse_float (sgnc ++ (body ++ (expc ++ (ws ++ suffix))))
        = some ((sgnQ : ℚ) * mantVal d1 d2 * (10 : ℚ) ^ e * unitMult (pyLower suffix))) ∧
    parse_float [] = none ∧
    (∀ s : List Char, (∀ c ∈ s, pyIsDigit c = false) → parse_float s = none) := by
  refine ⟨?_, rfl, fun s h => parse_float_none_of_no_digit h⟩
  intro sgnc sgnQ d1 d2 body expc ed e ws suffix hsgn hd1 hd2 hbody hexp hws hsf hwsem
  -- the rest after the number: exponent part, whitespace, suffix
  have hmemws : ∀ x ∈ ws ++ suffix, pyIsSpace x = true ∨ pyIsAlpha x = true := by
    intro x hx
    rcases List.mem_append.mp hx with h | h
    · exact Or.inl (hws x h)
    · exact Or.inr (hsf x h)
  have hr1 : ∀ c, (ws ++ suffix).head? = some c → pyIsDigit c = false :=
    rest_head_not_digit hws hsf
  -- the exponent resolves and the rest of it starts with no digit or dot
  have hxE : matchExp (expc ++ (ws ++ suffix)) = (e, ws ++ suffix) ∧
      (∀ c, (expc ++ (ws ++ suffix)).head? = some c →
        pyIsDigit c = false ∧ c ≠ '.') := by
    rcases hexp with ⟨rfl, rfl, -⟩ | ⟨echar, esgnc, esgn, rfl, he, hesgn, hed, hdd, rfl⟩
    · rw [List.nil_append]
      refine ⟨matchExp_no_digits hmemws, ?_⟩
      intro c hc
      have hf := space_or_alpha_facts (hmemws c (List.mem_of_mem_head? hc))
      exact ⟨hf.1, hf.2.2.2⟩
    · constructor
      · rw [show (echar :: (esgnc ++ ed)) ++ (ws ++ suffix)
            = echar :: (esgnc ++ (ed ++ (ws ++ suffix))) by simp]
        exact matchExp_some he hesgn hed hdd hr1
      · intro c hc
        simp only [List.cons_append, List.head?_cons, Option.some.injEq] at hc
        subst hc
        rcases he with rfl | rfl <;> exact ⟨by decide, by decide⟩
  -- the mantissa consumes exactly the body
  have hm : matchMantissa (body ++ (expc ++ (ws ++ suffix)))
      = some (d1, d2, expc ++ (ws ++ suffix)) := by
    obtain ⟨hb, h2nil, hne⟩ | ⟨hb, hne⟩ := hbody
    · rw [hb, h2nil]
      exact matchMantissa_nofrac hne hd1 (fun c hc => (hxE.2 c hc).1)
        (fun c hc => (hxE.2 c hc).2)
    · rw [hb]
      rw [show (d1 ++ '.' :: d2) ++ (expc ++ (ws ++ suffix))
          = d1 ++ '.' :: (d2 ++ (expc ++ (ws ++ suffix))) by simp]
      exact matchMantissa_frac hne hd1 hd2 (fun c hc => (hxE.2 c hc).1)
  -- the full numeric group
  have hmn : matchNumber (sgnc ++ (body ++ (expc ++ (ws ++ suffix))))
      = some ({ sgn := sgnQ, d1 := d1, d2 := d2, e := e }, ws ++ suffix) := by
    rcases hsgn with ⟨rfl, rfl⟩ | ⟨rfl, rfl⟩ | ⟨rfl, rfl⟩
    · rw [List.nil_append]
      have hhead : ∃ c0 r0, body ++ (expc ++ (ws ++ suffix)) = c0 :: r0 ∧
          c0 ≠ '+' ∧ c0 ≠ '-' := by
        obtain ⟨hb, -, hne⟩ | ⟨hb, -⟩ := hbody
        all_goals rw [hb]
        · cases d1 with
          | nil => exact absurd rfl hne
          | cons a t =>
              exact ⟨a, t ++ (expc ++ (ws ++ suffix)), by simp,
                digit_ne_plus (hd1 a (by simp)), digit_ne_minus (hd1 a (by simp))⟩
        · cases d1 with
          | nil => exact ⟨'.', d2 ++ (expc ++ (ws ++ suffix)), by simp, by decide, by decide⟩
          | cons a t =>
              exact ⟨a, (t ++ '.' :: d2) ++ (expc ++ (ws ++ suffix)), by simp,
                digit_ne_plus (hd1 a (by simp)), digit_ne_minus (hd1 a (by simp))⟩
      obtain ⟨c0, r0, heq, hp, hm2⟩ := hhead
      rw [heq]
      simp only [matchNumber]
      rw [if_neg hp, if_neg hm2, ← heq]
      exact numBodyAt_eq 1 hm hxE.1
    · rw [show matchNumber (['+'] ++ (body ++ (expc ++ (ws ++ suffix))))
          = numBodyAt 1 (body ++ (expc ++ (ws ++ suffix))) from rfl]
      exact numBodyAt_eq 1 hm hxE.1
    · rw [show matchNumber (['-'] ++ (body ++ (expc ++ (ws ++ suffix))))
          = numBodyAt (-1) (body ++ (expc ++ (ws ++ suffix))) from rfl]
      exact numBodyAt_eq (-1) hm hxE.1
  -- the whole string is nonempty and stripped of nothing
  have hbody_ne : body ≠ [] := by
    obtain ⟨hb, -, hne⟩ | ⟨hb, -⟩ := hbody
    · rw [hb]
      exact hne
    · rw [hb]
      simp
  have hcore_ne : sgnc ++ (body ++ (expc ++ (ws ++ suffix))) ≠ [] := by
    intro hnil
    rcases List.append_eq_nil.mp hnil with ⟨-, h2⟩
    rcases List.append_eq_nil.mp h2 with ⟨h3, -⟩
    exact hbody_ne h3
  have hhead_ns : ∀ c, (sgnc ++ (body ++ (expc ++ (ws ++ suffix)))).head? = some c →
      pyIsSpace c = false := by
    rcases hsgn with ⟨rfl, -⟩ | ⟨rfl, -⟩ | ⟨rfl, -⟩
    · rw [List.nil_append]
      obtain ⟨hb, -, hne⟩ | ⟨hb, -⟩ := hbody
      all_goals rw [hb]
      · cases d1 with
        | nil => exact absurd rfl hne
        | cons a t =>
            intro c hc
            simp only [List.cons_append, List.head?_cons, Option.some.injEq] at hc
            subst hc
            exact pyIsSpace_eq_false_of_digit (hd1 a (by simp))
      · cases d1 with
        | nil =>
            intro c hc
            simp only [List.nil_append, List.cons_append, List.head?_cons,
              Option.some.injEq] at hc
            subst hc
            decide
        | cons a t =>
            intro c hc
            simp only [List.cons_append, List.head?_cons, Option.some.injEq] at hc
            subst hc
            exact pyIsSpace_eq_false_of_digit (hd1 a (by simp))
    · intro c hc
      simp only [List.singleton_append, List.head?_cons, Option.some.injEq] at hc
      subst hc
      decide
    · intro c hc
      simp only [List.singleton_append, List.head?_cons, Option.some.injEq] at hc
      subst hc
      decide
  have hlast_ns : ∀ c, (sgnc ++ (body ++ (expc ++ (ws ++ suffix)))).getLast? = some c →
      pyIsSpace c = false := by
    intro c hc
    by_cases hsuf : suffix = []
    · have hwnil := hwsem hsuf
      subst hsuf
      subst hwnil
      simp only [List.append_nil] at hc
      rcases hexp with ⟨rfl, -, -⟩ | ⟨echar, esgnc, esgn, rfl, -, -, hed, hdd, -⟩
      · simp only [List.append_nil] at hc
        obtain ⟨hb, -, hne⟩ | ⟨hb, hne⟩ := hbody
        all_goals rw [hb] at hc
        · rw [List.getLast?_append_of_ne_nil _ hne] at hc
          exact pyIsSpace_eq_false_of_digit (hd1 c (mem_of_getLast? hc))
        · rw [List.getLast?_append_of_ne_nil _ (by simp)] at hc
          rw [show ('.' :: d2 : List Char) = ['.'] ++ d2 from rfl] at hc
          have hne2 : (['.'] ++ d2 : List Char) ≠ [] := by simp
          rw [List.getLast?_append_of_ne_nil _ hne2] at hc
          rw [List.getLast?_append_of_ne_nil _ hne] at hc
          exact pyIsSpace_eq_false_of_digit (hd2 c (mem_of_getLast? hc))
      · rw [List.getLast?_append_of_ne_nil _ (by simp)] at hc
        rw [List.getLast?_append_of_ne_nil _ (by simp [hed])] at hc
        rw [show (echar :: (esgnc ++ ed) : List Char) = [echar] ++ (esgnc ++ ed) from rfl,
          List.getLast?_append_of_ne_nil _ (by simp [hed]),
          List.getLast?_append_of_ne_nil _ hed] at hc
        exact pyIsSpace_eq_false_of_digit (hdd c (mem_of_getLast? hc))
    · rw [List.getLast?_append_of_ne_nil _ (by simp [hsuf]),
        List.getLast?_append_of_ne_nil _ (by simp [hsuf]),
        List.getLast?_append_of_ne_nil _ (by simp [hsuf]),
        List.getLast?_append_of_ne_nil _ hsuf] at hc
      exact alpha_not_space (hsf c (mem_of_getLast? hc))
  have hstrip := pyStrip_eq_self hhead_ns hlast_ns
  have hsearch := reSearchNum_of_matchNumber hmn
  -- assemble
  simp only [parse_float]
  rw [if_neg (by simpa using hcore_ne)]
  rw [hstrip, hsearch]
  have hsufhead : ∀ c, suffix.head? = some c → pyIsSpace c = false :=
    fun c hc => alpha_not_space (hsf c (List.mem_of_mem_head? hc))
  have hdrop : (ws ++ suffix).dropWhile pyIsSpace = suffix :=
    (takeWhile_append_exact ws suffix hws hsufhead).2
  have htake : suffix.takeWhile pyIsAlpha = suffix := takeWhile_all hsf
  simp only [hdrop, htake]
  rw [value_assembly]

/-- Witness for C8: `"-12.5e1khz"` parses to `-125000` and `"+3E2 dBm"`
to `300`; a digit-free string parses to nothing. -/
theorem c8_witness :
    parse_float "-12.5e1khz".data = some ((((-1 : Int) : ℚ)) * mantVal "12".data "5".data
      * (10 : ℚ) ^ (1 : Int) * unitMult (pyLower "khz".data)) ∧
    parse_float "+3E2 dBm".data = some ((((1 : Int) : ℚ)) * mantVal "3".data []
      * (10 : ℚ) ^ (2 : Int) * unitMult (pyLower "dBm".data)) ∧
    parse_float "-12.5e1khz".data = some (mkRat (-125000) 1) ∧
    parse_float "+3E2 dBm".data = some (mkRat 300 1) ∧
    parse_float "no reading".data = none := by
  have h := c8_parse_float_unit_suffix
  refine ⟨?_, ?_, by decide, by decide, h.2.2 "no reading".data (by decide)⟩
  · have := h.1 "-".data (-1) "12".data "5".data "12.5".data "e1".data "1".data 1
      [] "khz".data (by right; right; exact ⟨rfl, rfl⟩) (by decide) (by decide)
      (by right; exact ⟨rfl, by decide⟩)
      (by right; exact ⟨'e', [], 1, rfl, Or.inl rfl, Or.inl ⟨rfl, rfl⟩, by decide,
        by decide, by decide⟩)
      (by rintro c hc; cases hc) (by decide) (by intro h2; cases h2)
    simpa using this
  · have := h.1 "+".data 1 "3".data [] "3".data "E2".data "2".data 2
      " ".data "dBm".data (by right; left; exact ⟨rfl, rfl⟩) (by decide) (by rintro c hc; cases hc)
      (by left; exact ⟨rfl, rfl, by decide⟩)
      (by right; exact ⟨'E', [], 1, rfl, Or.inr rfl, Or.inl ⟨rfl, rfl⟩, by decide,
        by decide, by decide⟩)
      (by decide) (by decide) (by intro h2; cases h2)
    simpa using this

/-- C7: with no active driver, every facade query and write fails with
the NotConnected error, while facade identify does not fail but returns
the fixed placeholder — which is distinct from the empty string the real
driver's identify produces whenever its identification query fails. -/
theorem c7_facade_not_connected (env : Env) (st : Meter) (h : st.impl = none) :
    (∀ cmd, Meter.query env st cmd = .error notConnectedErr) ∧
    (∀ cmd, (Meter.write env st cmd).1 = .error notConnectedErr) ∧
    Meter.idn env st = meterIdnPlaceholder ∧
    meterIdnPlaceholder ≠ [] ∧
    (∀ (vst : VisaMeter) (e : List Char),
      VisaMeter.query env vst "*IDN?".data = .error e → VisaMeter.idn env vst = []) := by
  refine ⟨?_, ?_, ?_, ?_, ?_⟩
  · intro cmd
    simp [Meter.query, h]
  · intro cmd
    simp [Meter.write, h]
  · simp [Meter.idn, h]
  · decide
  · intro vst e he
    simp [VisaMeter.idn, he]

/-- Witness for C7 at a fresh facade and a fresh real driver. -/
theorem c7_witness :
    Meter.query envFail (Meter.new DEFAULT_BACKENDS) "MEAS:POW?".data
        = .error notConnectedErr ∧
    (Meter.write envFail (Meter.new DEFAULT_BACKENDS) "SENS:POW:ZERO:IMM".data).1
        = .error notConnectedErr ∧
    Meter.idn envFail (Meter.new DEFAULT_BACKENDS) = meterIdnPlaceholder ∧
    meterIdnPlaceholder ≠ [] ∧
    VisaMeter.idn envFail (VisaMeter.new DEFAULT_BACKENDS) = [] := by
  have h := c7_facade_not_connected envFail (Meter.new DEFAULT_BACKENDS) rfl
  exact ⟨h.1 _, h.2.1 _, h.2.2.1, h.2.2.2.1,
    h.2.2.2.2 (VisaMeter.new DEFAULT_BACKENDS) notConnectedErr rfl⟩

end PowerApp
